import Mathlib

/-!
Verification of the `nerdynz/datastore` library against its specification.

The development shallowly embeds the relevant Go functions over `List Char`
(`Str`).  Go standard-library string primitives (`strings.Contains`,
`strings.Replace` with `n = -1`, `strings.Split`, `strings.Trim`,
`strings.Join`, `strconv.Itoa`, `url.QueryUnescape`) are modelled faithfully
at the rune level; recursions that consume more than one character per step
are driven by a fuel argument equal to the input length so that every
definition is structurally recursive and kernel-computable.

Embedded functions (source: `src/unnamed/part_004` unless noted):
* `AppendSiteULID` — the multi-tenant predicate rewriter;
* `FormatSearch` — the search normalizer;
* `log`, `slogAdapterLog`, `slogPgxAdapterLog` — the structured logging
  bridge (`log`, `slogAdapter.Log`, `slogPgxAdapter.Log`);
* `getDBConnectionHost` / `getDBConnectionHostDS` — the host-aliasing step
  of `getDBConnection` (`src/unnamed/part_004` resp. `src/datastore.go`).
-/

/-- Strings are modelled as lists of runes. -/
abbrev Str := List Char

/-- Conversion from Lean string literals to the rune-list model. -/
def str (s : String) : Str := s.toList

/-- Go `strings.Contains(s, pat)`: `pat` occurs as a contiguous substring
of `s` (always true for the empty pattern). -/
def goContains : Str → Str → Bool
  | [], pat => pat.isEmpty
  | s@(_ :: t), pat => pat.isPrefixOf s || goContains t pat

/-- Fueled core of Go `strings.Replace(s, old, new, -1)` for nonempty `old`:
scan left to right, replacing each non-overlapping occurrence.  With
`fuel ≥ s.length` the fuel never runs out. -/
def goReplaceF : Nat → Str → Str → Str → Str
  | 0, s, _, _ => s
  | _ + 1, [], _, _ => []
  | f + 1, c :: t, old, new =>
    if old.isPrefixOf (c :: t) then new ++ goReplaceF f ((c :: t).drop old.length) old new
    else c :: goReplaceF f t old new

/-- Go `strings.Replace(s, old, new, -1)`.  For empty `old`, Go inserts
`new` at the start of the string and after every rune. -/
def goReplace (s old new : Str) : Str :=
  match old with
  | [] => new ++ s.foldr (fun c acc => c :: (new ++ acc)) []
  | _ :: _ => goReplaceF s.length s old new

/-- Fueled core of Go `strings.Split(s, sep)` for nonempty `sep`. -/
def goSplitF : Nat → Str → Str → List Str
  | 0, s, _ => [s]
  | _ + 1, [], _ => [[]]
  | f + 1, c :: t, sep =>
    if sep.isPrefixOf (c :: t) then [] :: goSplitF f ((c :: t).drop sep.length) sep
    else
      match goSplitF f t sep with
      | [] => [[c]]
      | x :: xs => (c :: x) :: xs

/-- Go `strings.Split(s, sep)`; an empty separator explodes the string into
its runes. -/
def goSplit (s sep : Str) : List Str :=
  match sep with
  | [] => s.map (fun c => [c])
  | _ :: _ => goSplitF s.length s sep

/-- Go `strings.Trim(s, " ")`: strip leading and trailing spaces. -/
def goTrimSpace (s : Str) : Str :=
  ((s.dropWhile (fun c => c == ' ')).reverse.dropWhile (fun c => c == ' ')).reverse

/-- Decimal digit character, used by the `strconv.Itoa` model. -/
def digitChar (d : Nat) : Char :=
  if d = 0 then '0' else if d = 1 then '1' else if d = 2 then '2'
  else if d = 3 then '3' else if d = 4 then '4' else if d = 5 then '5'
  else if d = 6 then '6' else if d = 7 then '7' else if d = 8 then '8' else '9'

/-- Fueled core of the `strconv.Itoa` model; `fuel ≥ n` suffices since the
argument is divided by ten at every step. -/
def itoaF : Nat → Nat → Str → Str
  | 0, n, acc => digitChar (n % 10) :: acc
  | f + 1, n, acc =>
    if n < 10 then digitChar n :: acc
    else itoaF f (n / 10) (digitChar (n % 10) :: acc)

/-- Go `strconv.Itoa` restricted to the naturals (the rewriter only ever
formats a positive argument position). -/
def itoa (n : Nat) : Str := itoaF n n []

/-- Value of a hexadecimal digit rune, if any (Go `unhex`). -/
def hexDigit (c : Char) : Option Nat :=
  if '0' ≤ c ∧ c ≤ '9' then some (c.toNat - 48)
  else if 'a' ≤ c ∧ c ≤ 'f' then some (c.toNat - 87)
  else if 'A' ≤ c ∧ c ≤ 'F' then some (c.toNat - 55)
  else none

/-- Go `url.QueryUnescape` at the rune level: `%XY` with two hex digits
decodes to the rune with that code, `+` decodes to a space, a `%` not
followed by two hex digits is an error (`none`). -/
def queryUnescape : Str → Option Str
  | [] => some []
  | '%' :: a :: b :: t =>
    match hexDigit a, hexDigit b with
    | some ha, some hb => (queryUnescape t).map (fun r => Char.ofNat (16 * ha + hb) :: r)
    | _, _ => none
  | ['%'] => none
  | ['%', _] => none
  | '+' :: t => (queryUnescape t).map (fun r => ' ' :: r)
  | c :: t => (queryUnescape t).map (fun r => c :: r)

/-- `FormatSearch` (src/unnamed/part_004, lines 925–942): normalize free
search text into a full-text prefix query.  On decode failure the original
input is used after substituting `%20` and then the empty pattern with `|`. -/
def FormatSearch (searchText : Str) : Str :=
  if searchText = [] then searchText
  else
    let s1 :=
      match queryUnescape searchText with
      | some decoded => decoded
      | none => goReplace (goReplace searchText (str "%20") (str "|")) [] (str "|")
    let s2 := goReplace s1 (str "@") (str " ")
    let s3 := goReplace s2 (str ".") (str " ")
    let s4 := goTrimSpace s3
    let s5 := List.intercalate (str ":* & ") (goSplit s4 (str " "))
    s5 ++ str ":*"

/-- Tail of the search-normalizer pipeline as the specification words it:
strip `@` and `.` into spaces, trim, split on spaces, join with the
prefix-AND operator and append a trailing prefix marker.  Used to state
claims about `FormatSearch`; defined independently of it. -/
def searchTail (s : Str) : Str :=
  List.intercalate (str ":* & ")
    (goSplit (goTrimSpace (goReplace (goReplace s (str "@") (str " ")) (str ".") (str " ")))
      (str " ")) ++ str ":*"

/-- The search normalizer as claim C8 words it: on decode failure, fall back
to the original input with only the literal `%20` sequences substituted by
the separator, then continue with the normal pipeline.  This is the
spec-side description, to be compared against `FormatSearch`. -/
def FormatSearchC8 (searchText : Str) : Str :=
  if searchText = [] then searchText
  else
    match queryUnescape searchText with
    | some decoded => searchTail decoded
    | none => searchTail (goReplace searchText (str "%20") (str "|"))

/-- Dynamic values carried in `[]interface{}` argument lists and log-field
maps (`any` in the Go source): a string, an integer, or some other value. -/
inductive GoVal where
  | vstr : Str → GoVal
  | vint : Int → GoVal
  | vother : Nat → GoVal
deriving DecidableEq, Repr

/-- `AppendSiteULID` (src/unnamed/part_004, lines 944–965): inject the
tenant predicate into a SQL fragment.  The error component models the
returned `error` (`none` = `nil`, `some msg` = `errors.New(msg)`). -/
def AppendSiteULID (siteULID : Str) (whereSQLOrMap : Str) (args : List GoVal) :
    Str × List GoVal × Option Str :=
  if goContains whereSQLOrMap (str " site_ulid = $") then
    (whereSQLOrMap, args, none)
  else if !goContains whereSQLOrMap (str "$SITEULID") then
    (whereSQLOrMap, args, some (str "No $SITEULID placeholder defined in " ++ whereSQLOrMap))
  else
    let args' := args ++ [GoVal.vstr siteULID]
    let position := args'.length
    if goContains whereSQLOrMap (str ".$SITEULID") then
      let newSQL := (goSplit whereSQLOrMap (str "$SITEULID")).headD []
      let replaceSQLParts := goSplit newSQL (str " ")
      let tableQualifier := replaceSQLParts.getLastD []
      (goReplace whereSQLOrMap (tableQualifier ++ str "$SITEULID")
          (str " and " ++ tableQualifier ++ str "site_ulid = $" ++ itoa position),
        args', none)
    else if goContains whereSQLOrMap (str "$SITEULID") then
      (goReplace whereSQLOrMap (str "$SITEULID") (str " site_ulid = $" ++ itoa position),
        args', none)
    else
      (whereSQLOrMap ++ str " and site_ulid = $" ++ itoa position, args', none)

/-- Number of (possibly overlapping) occurrence positions of `p` in `s`:
positions `i` with `p` a prefix of `s.drop i`.  Spec-side counting notion
used to state "exactly one occurrence". -/
def occCount (p : Str) : Str → Nat
  | [] => if p.isEmpty then 1 else 0
  | s@(_ :: t) => (if p.isPrefixOf s then 1 else 0) + occCount p t

/-- Internal severity model of the logging bridge (`loglevel`,
src/unnamed/part_004 lines 768–780): Trace 0, Debug 1, Info 2, Error 3.
Modelled as `Nat` (the Go type is `uint8`). -/
def levelTrace : Nat := 0

/-- See `levelTrace`. -/
def levelDebug : Nat := 1

/-- See `levelTrace`. -/
def levelInfo : Nat := 2

/-- See `levelTrace`. -/
def levelError : Nat := 3

/-- `sqldblogger.Level` constants of the pinned `simukti/sqldb-logger`
dependency (`uint8`: Trace 0, Debug 1, Info 2, Error 3 — the local
`loglevel` copy in the source reproduces these values and doc comments). -/
def sqldbLevelTrace : Nat := 0

/-- See `sqldbLevelTrace`. -/
def sqldbLevelDebug : Nat := 1

/-- See `sqldbLevelTrace`. -/
def sqldbLevelInfo : Nat := 2

/-- See `sqldbLevelTrace`. -/
def sqldbLevelError : Nat := 3

/-- `tracelog.LogLevel` constants of the pinned `jackc/pgx/v5` dependency
(`int`: None 1, Error 2, Warn 3, Info 4, Debug 5, Trace 6). -/
def tracelogLevelNone : Int := 1

/-- See `tracelogLevelNone`. -/
def tracelogLevelError : Int := 2

/-- See `tracelogLevelNone`. -/
def tracelogLevelWarn : Int := 3

/-- See `tracelogLevelNone`. -/
def tracelogLevelInfo : Int := 4

/-- See `tracelogLevelNone`. -/
def tracelogLevelDebug : Int := 5

/-- See `tracelogLevelNone`. -/
def tracelogLevelTrace : Int := 6

/-- Severity mapping of `slogAdapter.Log` (src/unnamed/part_004 lines
736–750): `ll := levelTrace` then a `switch` on the `sqldblogger.Level`. -/
def slogAdapterMap (level : Nat) : Nat :=
  if level = sqldbLevelError then levelError
  else if level = sqldbLevelInfo then levelInfo
  else if level = sqldbLevelDebug then levelDebug
  else levelTrace

/-- Severity mapping of `slogPgxAdapter.Log` (src/unnamed/part_004 lines
752–766).  The third case in the source is `tracelog.LogLevel(levelDebug)`,
i.e. the integer 1 (= `tracelog.LogLevelNone`), not `tracelog.LogLevelDebug`. -/
def slogPgxAdapterMap (level : Int) : Nat :=
  if level = tracelogLevelError then levelError
  else if level = tracelogLevelInfo then levelInfo
  else if level = (1 : Int) then levelDebug
  else levelTrace

/-- Target severity at which the sink is invoked (the final `switch` of
`log`, src/unnamed/part_004 lines 797–803: Error, Info, Debug, and a
`default` branch that also emits at Debug). -/
inductive Sev where
  | error : Sev
  | info : Sev
  | debug : Sev
deriving DecidableEq, Repr

/-- The emitted severity for an internal `loglevel` value, including the
fail-open `default` branch. -/
def emitSev (level : Nat) : Sev :=
  if level = levelError then Sev.error
  else if level = levelInfo then Sev.info
  else if level = levelDebug then Sev.debug
  else Sev.debug

/-- Whitespace flattening applied to the `sql` field value (src lines
790–792): newlines then tabs are replaced by single spaces. -/
def flattenSQL (s : Str) : Str :=
  goReplace (goReplace s (str "\n") (str " ")) (str "\t") (str " ")

/-- Field-processing loop of `log` (src/unnamed/part_004 lines 783–795):
drop the `time` field, flatten the `sql` field — via an unchecked
`v.(string)` assertion whose failure is a panic, modelled by `none` —
and pass every other field through. -/
def processFields : List (Str × GoVal) → Option (List (Str × GoVal))
  | [] => some []
  | (k, v) :: rest =>
    if k = str "time" then processFields rest
    else if k = str "sql" then
      match v with
      | GoVal.vstr s => (processFields rest).map (fun r => (k, GoVal.vstr (flattenSQL s)) :: r)
      | _ => none
    else (processFields rest).map (fun r => (k, v) :: r)

/-- One emitted record of the structured sink: severity, the constant
message `"DB"`, and the key/value argument list. -/
structure LogRecord where
  sev : Sev
  msg : Str
  args : List (Str × GoVal)
deriving DecidableEq, Repr

/-- The `log` function (src/unnamed/part_004 lines 782–803): process the
field map, append the rendered message as a trailing `sql` field, and emit
at the mapped severity.  `none` models the panic of the `v.(string)`
assertion. -/
def log (level : Nat) (msg : Str) (data : List (Str × GoVal)) : Option LogRecord :=
  (processFields data).map (fun fields =>
    ⟨emitSev level, str "DB", fields ++ [(str "sql", GoVal.vstr msg)]⟩)

/-- `slogAdapter.Log` composed with `log`. -/
def slogAdapterLog (level : Nat) (msg : Str) (data : List (Str × GoVal)) : Option LogRecord :=
  log (slogAdapterMap level) msg data

/-- `slogPgxAdapter.Log` composed with `log`. -/
def slogPgxAdapterLog (level : Int) (msg : Str) (data : List (Str × GoVal)) : Option LogRecord :=
  log (slogPgxAdapterMap level) msg data

/-- Well-typedness of a field map: every value stored under the key `sql`
is a string (the precondition for `log` not to panic). -/
def sqlFieldsWellTyped (data : List (Str × GoVal)) : Prop :=
  ∀ v : GoVal, (str "sql", v) ∈ data → ∃ s : Str, v = GoVal.vstr s

/-- Claim-side description of the field transformation of `log` (claim C6):
drop `time`, flatten newlines and tabs of the `sql` value rune by rune,
pass all other fields through, and append the message as a trailing `sql`
field. -/
def c6ExpectedArgs (data : List (Str × GoVal)) (msg : Str) : List (Str × GoVal) :=
  (data.filter (fun kv => decide (kv.1 ≠ str "time"))).map
      (fun kv =>
        if kv.1 = str "sql" then
          (kv.1,
            match kv.2 with
            | GoVal.vstr s =>
                GoVal.vstr (s.map (fun c => if c = '\n' ∨ c = '\t' then ' ' else c))
            | v => v)
        else kv)
    ++ [(str "sql", GoVal.vstr msg)]

/-- Host-aliasing step of `getDBConnection` (src/unnamed/part_004 lines
520–523): a host equal to the sentinel is replaced by the
`GCLOUD_SQL_INSTANCE` settings value. -/
def getDBConnectionHost (host gcloudSetting : Str) : Str :=
  if host = str "GCLOUD_SQL_INSTANCE" then gcloudSetting else host

/-- Host-aliasing step of `getDBConnection` in `src/datastore.go` (lines
530–533): the settings value is prepended with `"/cloudsql"`. -/
def getDBConnectionHostDS (host gcloudSetting : Str) : Str :=
  if host = str "GCLOUD_SQL_INSTANCE" then str "/cloudsql" ++ gcloudSetting else host

/-- Connection-target string built by `getDBConnection` after host
resolution (`dbStr`, both variants): `dbname=… user=… host=…` with an
optional ` port=…`. -/
def dbConnStr (dbName username host port : Str) : Str :=
  str "dbname=" ++ dbName ++ str " user=" ++ username ++ str " host=" ++ host ++
    (if port ≠ [] then str " port=" ++ port else [])

/-- Decidable sufficient check that every `sql`-keyed value in a field map
is a string; used to discharge `sqlFieldsWellTyped` on concrete maps. -/
def sqlOKb (data : List (Str × GoVal)) : Bool :=
  data.all (fun kv =>
    !(kv.1 == str "sql") ||
      (match kv.2 with
       | GoVal.vstr _ => true
       | _ => false))

/-! ### Basic equations for the fueled string primitives -/

theorem goReplaceF_fuelIrrel (old new : Str) (hold : old ≠ []) :
    ∀ f g s, s.length ≤ f → s.length ≤ g → goReplaceF f s old new = goReplaceF g s old new := by
  intro f
  induction f using Nat.strong_induction_on with
  | _ f ih =>
    intro g s hf hg
    have hone : 1 ≤ old.length := by
      cases old with
      | nil => exact absurd rfl hold
      | cons _ _ => simp
    match f, g, s with
    | 0, 0, s => rfl
    | 0, g + 1, s =>
      have hs : s = [] := List.length_eq_zero.mp (Nat.le_zero.mp hf)
      subst hs; rfl
    | f + 1, 0, s =>
      have hs : s = [] := List.length_eq_zero.mp (Nat.le_zero.mp hg)
      subst hs; rfl
    | f + 1, g + 1, [] => rfl
    | f + 1, g + 1, c :: t =>
      simp only [goReplaceF]
      by_cases hp : old.isPrefixOf (c :: t)
      · rw [if_pos hp, if_pos hp]
        congr 1
        apply ih f (Nat.lt_succ_self f)
        · simp only [List.length_drop, List.length_cons] at *; omega
        · simp only [List.length_drop, List.length_cons] at *; omega
      · rw [if_neg hp, if_neg hp]
        congr 1
        apply ih f (Nat.lt_succ_self f)
        · simp only [List.length_cons] at hf; omega
        · simp only [List.length_cons] at hg; omega

theorem goReplace_nil (old new : Str) (h : old ≠ []) : goReplace [] old new = [] := by
  cases old with
  | nil => exact absurd rfl h
  | cons o os => rfl

theorem goReplace_cons (c : Char) (t old new : Str) (h : old ≠ []) :
    goReplace (c :: t) old new =
      if old.isPrefixOf (c :: t) then new ++ goReplace ((c :: t).drop old.length) old new
      else c :: goReplace t old new := by
  cases old with
  | nil => exact absurd rfl h
  | cons o os =>
    show goReplaceF (c :: t).length (c :: t) (o :: os) new = _
    rw [List.length_cons, goReplaceF]
    by_cases hp : (o :: os).isPrefixOf (c :: t)
    · rw [if_pos hp, if_pos hp]
      congr 1
      have hre : goReplace ((c :: t).drop (o :: os).length) (o :: os) new
          = goReplaceF ((c :: t).drop (o :: os).length).length
              ((c :: t).drop (o :: os).length) (o :: os) new := rfl
      rw [hre]
      apply goReplaceF_fuelIrrel _ _ h
      · simp only [List.length_drop, List.length_cons]; omega
      · exact Nat.le_refl _
    · rw [if_neg hp, if_neg hp]
      rfl

theorem goSplitF_fuelIrrel (sep : Str) (hsep : sep ≠ []) :
    ∀ f g s, s.length ≤ f → s.length ≤ g → goSplitF f s sep = goSplitF g s sep := by
  intro f
  induction f using Nat.strong_induction_on with
  | _ f ih =>
    intro g s hf hg
    have hone : 1 ≤ sep.length := by
      cases sep with
      | nil => exact absurd rfl hsep
      | cons _ _ => simp
    match f, g, s with
    | 0, 0, s => rfl
    | 0, g + 1, s =>
      have hs : s = [] := List.length_eq_zero.mp (Nat.le_zero.mp hf)
      subst hs; rfl
    | f + 1, 0, s =>
      have hs : s = [] := List.length_eq_zero.mp (Nat.le_zero.mp hg)
      subst hs; rfl
    | f + 1, g + 1, [] => rfl
    | f + 1, g + 1, c :: t =>
      simp only [goSplitF]
      by_cases hp : sep.isPrefixOf (c :: t)
      · rw [if_pos hp, if_pos hp]
        congr 1
        apply ih f (Nat.lt_succ_self f)
        · simp only [List.length_drop, List.length_cons] at *; omega
        · simp only [List.length_drop, List.length_cons] at *; omega
      · rw [if_neg hp, if_neg hp]
        have hrec : goSplitF f t sep = goSplitF g t sep := by
          apply ih f (Nat.lt_succ_self f)
          · simp only [List.length_cons] at hf; omega
          · simp only [List.length_cons] at hg; omega
        rw [hrec]

theorem goSplit_nil (sep : Str) (h : sep ≠ []) : goSplit [] sep = [[]] := by
  cases sep with
  | nil => exact absurd rfl h
  | cons o os => rfl

theorem goSplit_cons (c : Char) (t sep : Str) (h : sep ≠ []) :
    goSplit (c :: t) sep =
      if sep.isPrefixOf (c :: t) then [] :: goSplit ((c :: t).drop sep.length) sep
      else
        match goSplit t sep with
        | [] => [[c]]
        | x :: xs => (c :: x) :: xs := by
  cases sep with
  | nil => exact absurd rfl h
  | cons o os =>
    show goSplitF (c :: t).length (c :: t) (o :: os) = _
    rw [List.length_cons, goSplitF]
    by_cases hp : (o :: os).isPrefixOf (c :: t)
    · rw [if_pos hp, if_pos hp]
      congr 1
      have hre : goSplit ((c :: t).drop (o :: os).length) (o :: os)
          = goSplitF ((c :: t).drop (o :: os).length).length
              ((c :: t).drop (o :: os).length) (o :: os) := rfl
      rw [hre]
      apply goSplitF_fuelIrrel _ h
      · simp only [List.length_drop, List.length_cons]; omega
      · exact Nat.le_refl _
    · rw [if_neg hp, if_neg hp]
      rfl

/-! ### Substring occurrences -/

theorem goContains_infix_iff (s p : Str) : goContains s p = true ↔ p <:+: s := by
  induction s with
  | nil =>
    simp only [goContains, List.isEmpty_iff, List.infix_nil]
  | cons c t ih =>
    simp only [goContains, Bool.or_eq_true, List.isPrefixOf_iff_prefix, ih,
      List.infix_cons_iff]

theorem occCount_cons (p : Str) (c : Char) (t : Str) :
    occCount p (c :: t) = (if p.isPrefixOf (c :: t) then 1 else 0) + occCount p t := rfl

theorem occCount_eq_zero_iff (p : Str) (hp : p ≠ []) :
    ∀ s : Str, occCount p s = 0 ↔ ∀ i, ¬ p <+: s.drop i := by
  intro s
  induction s with
  | nil =>
    simp only [occCount, List.isEmpty_iff]
    constructor
    · intro h i hpre
      rw [List.drop_nil] at hpre
      exact hp (List.prefix_nil.mp hpre)
    · intro _
      rw [if_neg hp]
  | cons c t ih =>
    rw [occCount_cons]
    constructor
    · intro h i hpre
      by_cases hp0 : p.isPrefixOf (c :: t)
      · rw [if_pos hp0] at h; omega
      · rw [if_neg hp0, Nat.zero_add] at h
        match i with
        | 0 =>
          rw [List.drop_zero] at hpre
          exact hp0 (List.isPrefixOf_iff_prefix.mpr hpre)
        | j + 1 =>
          rw [List.drop_succ_cons] at hpre
          exact (ih.mp h) j hpre
    · intro h
      have h0 : ¬ p.isPrefixOf (c :: t) := by
        intro hb
        exact h 0 (by rw [List.drop_zero]; exact List.isPrefixOf_iff_prefix.mp hb)
      rw [if_neg h0, Nat.zero_add, ih]
      intro j hj
      exact h (j + 1) (by rw [List.drop_succ_cons]; exact hj)

theorem occCount_eq_one_iff (p : Str) (hp : p ≠ []) :
    ∀ s : Str, occCount p s = 1 ↔ ∃ i, p <+: s.drop i ∧ ∀ j, p <+: s.drop j → j = i := by
  intro s
  induction s with
  | nil =>
    simp only [occCount, List.isEmpty_iff]
    rw [if_neg hp]
    constructor
    · intro h; omega
    · rintro ⟨i, hi, -⟩
      rw [List.drop_nil] at hi
      exact absurd (List.prefix_nil.mp hi) hp
  | cons c t ih =>
    rw [occCount_cons]
    by_cases hp0 : p.isPrefixOf (c :: t)
    · rw [if_pos hp0]
      have hpre0 : p <+: (c :: t).drop 0 := by
        rw [List.drop_zero]; exact List.isPrefixOf_iff_prefix.mp hp0
      constructor
      · intro h
        have hz : occCount p t = 0 := by omega
        refine ⟨0, hpre0, ?_⟩
        intro j hj
        match j with
        | 0 => rfl
        | k + 1 =>
          rw [List.drop_succ_cons] at hj
          exact absurd hj (((occCount_eq_zero_iff p hp t).mp hz) k)
      · rintro ⟨i, hi, hu⟩
        have hi0 : i = 0 := (hu 0 hpre0).symm
        subst hi0
        have hz : occCount p t = 0 := by
          rw [occCount_eq_zero_iff p hp t]
          intro j hj
          have := hu (j + 1) (by rw [List.drop_succ_cons]; exact hj)
          omega
        omega
    · rw [if_neg hp0, Nat.zero_add, ih]
      constructor
      · rintro ⟨i, hi, hu⟩
        refine ⟨i + 1, by rw [List.drop_succ_cons]; exact hi, ?_⟩
        intro j hj
        match j with
        | 0 =>
          rw [List.drop_zero] at hj
          exact absurd (List.isPrefixOf_iff_prefix.mpr hj) hp0
        | k + 1 =>
          rw [List.drop_succ_cons] at hj
          exact congrArg Nat.succ (hu k hj)
      · rintro ⟨i, hi, hu⟩
        match i with
        | 0 =>
          rw [List.drop_zero] at hi
          exact absurd (List.isPrefixOf_iff_prefix.mpr hi) hp0
        | k + 1 =>
          rw [List.drop_succ_cons] at hi
          refine ⟨k, hi, ?_⟩
          intro j hj
          have := hu (j + 1) (by rw [List.drop_succ_cons]; exact hj)
          omega

theorem infix_iff_exists_drop (p s : Str) : p <:+: s ↔ ∃ i, p <+: s.drop i := by
  constructor
  · rintro ⟨u, v, rfl⟩
    refine ⟨u.length, ?_⟩
    rw [List.append_assoc, List.drop_append_eq_append_drop, List.drop_length, Nat.sub_self,
      List.drop_zero, List.nil_append]
    exact List.prefix_append p v
  · rintro ⟨i, t, ht⟩
    refine ⟨s.take i, t, ?_⟩
    rw [List.append_assoc, ht, List.take_append_drop]

theorem count_one_of_unique (p s : Str) (hp : p ≠ []) (i : Nat)
    (hi : p <+: s.drop i) (hu : ∀ j, p <+: s.drop j → j = i) : occCount p s = 1 :=
  (occCount_eq_one_iff p hp s).mpr ⟨i, hi, hu⟩

theorem contains_of_count_one (p s : Str) (hp : p ≠ []) (h : occCount p s = 1) :
    goContains s p = true := by
  obtain ⟨i, hi, -⟩ := (occCount_eq_one_iff p hp s).mp h
  exact (goContains_infix_iff s p).mpr ((infix_iff_exists_drop p s).mpr ⟨i, hi⟩)

/-! ### Claims C3, C9 — error path and already-scoped guard of `AppendSiteULID` -/

/-- C3: for every whereClause without any `$SITEULID` placeholder token that
is not already scoped (the guard substring `" site_ulid = $"` is absent),
`AppendSiteULID` returns the missing-placeholder error carrying the
offending clause, and leaves the clause and the argument list unchanged. -/
theorem appendSiteULID_missing_token_errors (siteULID whereClause : Str) (args : List GoVal)
    (h1 : goContains whereClause (str "$SITEULID") = false)
    (h2 : goContains whereClause (str " site_ulid = $") = false) :
    AppendSiteULID siteULID whereClause args =
      (whereClause, args, some (str "No $SITEULID placeholder defined in " ++ whereClause)) := by
  unfold AppendSiteULID
  rw [h2, h1]
  rfl

/-- Witness for C3 at a concrete unscoped clause without placeholder. -/
theorem appendSiteULID_missing_token_errors_witness :
    AppendSiteULID (str "T") (str "name = $1") [] =
      (str "name = $1", [], some (str "No $SITEULID placeholder defined in " ++ str "name = $1")) :=
  appendSiteULID_missing_token_errors (str "T") (str "name = $1") [] (by decide) (by decide)

/-- C9: any whereClause containing the substring `" site_ulid = $"` anywhere
is returned unchanged with no error, regardless of whether a placeholder is
present: the already-scoped guard is a pure substring test. -/
theorem appendSiteULID_guard_is_substring_test (siteULID whereClause : Str) (args : List GoVal)
    (h : goContains whereClause (str " site_ulid = $") = true) :
    AppendSiteULID siteULID whereClause args = (whereClause, args, none) := by
  unfold AppendSiteULID
  rw [h]
  rfl

/-- Witness for C9: a clause that contains the guard substring without any
placeholder and whose text did not come from a previous rewrite. -/
theorem appendSiteULID_guard_is_substring_test_witness :
    AppendSiteULID (str "T") (str "note = ' site_ulid = $'") [GoVal.vint 7] =
      (str "note = ' site_ulid = $'", [GoVal.vint 7], none) :=
  appendSiteULID_guard_is_substring_test (str "T") (str "note = ' site_ulid = $'")
    [GoVal.vint 7] (by decide)

/-! ### Claim C4 — host aliasing for managed Cloud SQL sockets -/

/-- C4, counterexample: in the `src/datastore.go` variant the settings value
`"/cloudsql/x:y:z"` is prepended with `"/cloudsql"`, so the built connection
target does not use `/cloudsql/x:y:z` as the host. -/
theorem gcloudHost_datastoreGo_counterexample :
    getDBConnectionHostDS (str "GCLOUD_SQL_INSTANCE") (str "/cloudsql/x:y:z") =
        str "/cloudsql/cloudsql/x:y:z" ∧
      str "/cloudsql/cloudsql/x:y:z" ≠ str "/cloudsql/x:y:z" ∧
      goContains
          (dbConnStr (str "mydb") (str "me")
            (getDBConnectionHostDS (str "GCLOUD_SQL_INSTANCE") (str "/cloudsql/x:y:z")) [])
          (str " host=/cloudsql/x:y:z") = false := by
  refine ⟨by decide, by decide, by decide⟩

/-- C4, amended: the `src/unnamed/part_004` variant substitutes the settings
value for the sentinel host, so the built connection target uses
`/cloudsql/x:y:z` as host; the `src/datastore.go` variant instead prepends
`"/cloudsql"` to the settings value. -/
theorem gcloudHost_resolution :
    getDBConnectionHost (str "GCLOUD_SQL_INSTANCE") (str "/cloudsql/x:y:z") =
        str "/cloudsql/x:y:z" ∧
      goContains
          (dbConnStr (str "mydb") (str "me")
            (getDBConnectionHost (str "GCLOUD_SQL_INSTANCE") (str "/cloudsql/x:y:z")) [])
          (str " host=/cloudsql/x:y:z") = true ∧
      getDBConnectionHostDS (str "GCLOUD_SQL_INSTANCE") (str "/cloudsql/x:y:z") =
        str "/cloudsql" ++ str "/cloudsql/x:y:z" := by
  refine ⟨by decide, by decide, by decide⟩

/-! ### Claims C7, C8 — the search normalizer -/

/-- C7: `FormatSearch ""` is empty, `FormatSearch "a.b@c"` is the prefix
query `"a:* & b:* & c:*"`, and in general on a successfully decoded input
the result is the decoded text with `@` and `.` turned into spaces,
trimmed, split on spaces, joined with `":* & "` and suffixed with `":*"`
(the pipeline `searchTail`). -/
theorem formatSearch_examples :
    FormatSearch (str "") = str "" ∧
      FormatSearch (str "a.b@c") = str "a:* & b:* & c:*" ∧
      ∀ s d : Str, s ≠ [] → queryUnescape s = some d → FormatSearch s = searchTail d := by
  refine ⟨by decide, by decide, ?_⟩
  intro s d h0 h
  unfold FormatSearch searchTail
  rw [if_neg h0, h]

/-- Witness for the universally quantified part of C7. -/
theorem formatSearch_examples_witness :
    FormatSearch (str "x%20y") = searchTail (str "x y") :=
  formatSearch_examples.2.2 (str "x%20y") (str "x y") (by decide) (by decide)

/-- C8, counterexample: on the decode-failure input `"a%20b%zz"` the code
does not merely substitute the literal `%20` sequences — the subsequent
`strings.Replace` with an empty pattern inserts a `"|"` around every rune —
so the output differs from the claim's described fallback (`FormatSearchC8`). -/
theorem formatSearch_fallback_counterexample :
    queryUnescape (str "a%20b%zz") = none ∧
      FormatSearch (str "a%20b%zz") = str "|a|||b|%|z|z|:*" ∧
      FormatSearchC8 (str "a%20b%zz") = str "a|b%zz:*" ∧
      FormatSearch (str "a%20b%zz") ≠ FormatSearchC8 (str "a%20b%zz") := by
  refine ⟨by decide, by decide, by decide, by decide⟩

/-- C8, amended: on every input whose URL-decoding fails, `FormatSearch`
returns no error and falls back to the original input with the literal
`%20` sequences replaced by `"|"` and, additionally, a `"|"` inserted at
the start of the text and after every rune (Go `strings.Replace` with an
empty pattern), before the normal `@`/`.`/trim/join processing continues. -/
theorem formatSearch_fallback (s : Str) (h0 : s ≠ []) (h : queryUnescape s = none) :
    FormatSearch s =
      searchTail (goReplace (goReplace s (str "%20") (str "|")) [] (str "|")) := by
  unfold FormatSearch searchTail
  rw [if_neg h0, h]

/-- Witness for the amended C8. -/
theorem formatSearch_fallback_witness :
    FormatSearch (str "a%20b%zz") =
      searchTail (goReplace (goReplace (str "a%20b%zz") (str "%20") (str "|")) [] (str "|")) :=
  formatSearch_fallback (str "a%20b%zz") (by decide) (by decide)

/-! ### Logging bridge helpers -/

theorem goReplace_singleton (a b : Char) :
    ∀ s : Str, goReplace s [a] [b] = s.map (fun c => if c = a then b else c) := by
  intro s
  induction s with
  | nil => rw [goReplace_nil _ _ (by simp), List.map_nil]
  | cons c t ih =>
    rw [goReplace_cons _ _ _ _ (by simp), List.map_cons]
    by_cases hac : a = c
    · rw [if_pos (by simp [List.isPrefixOf, hac])]
      have hd : (c :: t).drop ([a] : Str).length = t := by simp
      rw [hd, ih]
      have hhead : (if c = a then b else c) = b := if_pos hac.symm
      rw [hhead]
      rfl
    · rw [if_neg (by simp [List.isPrefixOf, hac]), ih]
      have hhead : (if c = a then b else c) = c := if_neg (fun hc => hac hc.symm)
      rw [hhead]

theorem flattenSQL_eq_map (s : Str) :
    flattenSQL s = s.map (fun c => if c = '\n' ∨ c = '\t' then ' ' else c) := by
  have h1 : str "\n" = ['\n'] := rfl
  have h2 : str "\t" = ['\t'] := rfl
  have h3 : str " " = [' '] := rfl
  unfold flattenSQL
  rw [h1, h2, h3, goReplace_singleton, goReplace_singleton, List.map_map]
  apply List.map_congr_left
  intro c _
  by_cases hn : c = '\n'
  · subst hn; rfl
  · by_cases ht : c = '\t'
    · subst ht; rfl
    · simp [Function.comp, hn, ht]

theorem processFields_cons_time (k : Str) (v : GoVal) (rest : List (Str × GoVal))
    (hk : k = str "time") : processFields ((k, v) :: rest) = processFields rest := by
  simp only [processFields]
  rw [if_pos hk]

theorem processFields_cons_sql_str (k s : Str) (rest : List (Str × GoVal))
    (hk : ¬ k = str "time") (hs : k = str "sql") :
    processFields ((k, GoVal.vstr s) :: rest) =
      (processFields rest).map (fun r => (k, GoVal.vstr (flattenSQL s)) :: r) := by
  simp only [processFields]
  rw [if_neg hk, if_pos hs]

theorem processFields_cons_sql_bad (k : Str) (v : GoVal) (rest : List (Str × GoVal))
    (hk : ¬ k = str "time") (hs : k = str "sql") (hv : ∀ s : Str, v ≠ GoVal.vstr s) :
    processFields ((k, v) :: rest) = none := by
  cases v with
  | vstr s => exact absurd rfl (hv s)
  | vint n =>
    simp only [processFields]
    rw [if_neg hk, if_pos hs]
  | vother n =>
    simp only [processFields]
    rw [if_neg hk, if_pos hs]

theorem processFields_cons_other (k : Str) (v : GoVal) (rest : List (Str × GoVal))
    (hk : ¬ k = str "time") (hs : ¬ k = str "sql") :
    processFields ((k, v) :: rest) = (processFields rest).map (fun r => (k, v) :: r) := by
  simp only [processFields]
  rw [if_neg hk, if_neg hs]

theorem processFields_eq_none_iff (data : List (Str × GoVal)) :
    processFields data = none ↔
      ∃ v : GoVal, (str "sql", v) ∈ data ∧ ∀ s : Str, v ≠ GoVal.vstr s := by
  induction data with
  | nil => simp [processFields]
  | cons kv rest ih =>
    obtain ⟨k, v⟩ := kv
    by_cases hk : k = str "time"
    · rw [processFields_cons_time _ _ _ hk, ih]
      constructor
      · rintro ⟨v', hm, hv⟩
        exact ⟨v', List.mem_cons_of_mem _ hm, hv⟩
      · rintro ⟨v', hm, hv⟩
        rcases List.mem_cons.mp hm with he | hm'
        · have hek : str "sql" = k := congrArg Prod.fst he
          exact absurd (hek.trans hk) (by decide)
        · exact ⟨v', hm', hv⟩
    · by_cases hs : k = str "sql"
      · cases v with
        | vstr s =>
          rw [processFields_cons_sql_str _ _ _ hk hs, Option.map_eq_none', ih]
          constructor
          · rintro ⟨v', hm, hv⟩
            exact ⟨v', List.mem_cons_of_mem _ hm, hv⟩
          · rintro ⟨v', hm, hv⟩
            rcases List.mem_cons.mp hm with he | hm'
            · have hev : v' = GoVal.vstr s := congrArg Prod.snd he
              exact absurd hev (hv s)
            · exact ⟨v', hm', hv⟩
        | vint n =>
          rw [processFields_cons_sql_bad _ _ _ hk hs (fun s hc => GoVal.noConfusion hc)]
          simp only [true_iff]
          refine ⟨GoVal.vint n, ?_, fun s hc => GoVal.noConfusion hc⟩
          rw [← hs]
          exact List.mem_cons_self _ _
        | vother n =>
          rw [processFields_cons_sql_bad _ _ _ hk hs (fun s hc => GoVal.noConfusion hc)]
          simp only [true_iff]
          refine ⟨GoVal.vother n, ?_, fun s hc => GoVal.noConfusion hc⟩
          rw [← hs]
          exact List.mem_cons_self _ _
      · rw [processFields_cons_other _ _ _ hk hs, Option.map_eq_none', ih]
        constructor
        · rintro ⟨v', hm, hv⟩
          exact ⟨v', List.mem_cons_of_mem _ hm, hv⟩
        · rintro ⟨v', hm, hv⟩
          rcases List.mem_cons.mp hm with he | hm'
          · have hek : str "sql" = k := congrArg Prod.fst he
            exact absurd hek.symm hs
          · exact ⟨v', hm', hv⟩

theorem processFields_of_wellTyped (data : List (Str × GoVal)) (h : sqlFieldsWellTyped data) :
    processFields data =
      some ((data.filter (fun kv => decide (kv.1 ≠ str "time"))).map
        (fun kv =>
          if kv.1 = str "sql" then
            (kv.1,
              match kv.2 with
              | GoVal.vstr s => GoVal.vstr (flattenSQL s)
              | v => v)
          else kv)) := by
  induction data with
  | nil => rfl
  | cons kv rest ih =>
    obtain ⟨k, v⟩ := kv
    have hrest : sqlFieldsWellTyped rest := fun v' hm => h v' (List.mem_cons_of_mem _ hm)
    by_cases hk : k = str "time"
    · rw [processFields_cons_time _ _ _ hk, ih hrest]
      congr 1
      rw [List.filter_cons]
      have : (decide ((k, v).1 ≠ str "time")) = false := by simp [hk]
      rw [this]
      rfl
    · have hdk : (decide ((k, v).1 ≠ str "time")) = true := by simp [hk]
      by_cases hs : k = str "sql"
      · obtain ⟨s, rfl⟩ := h v (by rw [← hs]; exact List.mem_cons_self _ _)
        rw [processFields_cons_sql_str _ _ _ hk hs, ih hrest, Option.map_some']
        congr 1
        rw [List.filter_cons, hdk, if_pos rfl, List.map_cons, if_pos hs]
      · rw [processFields_cons_other _ _ _ hk hs, ih hrest, Option.map_some']
        congr 1
        rw [List.filter_cons, hdk, if_pos rfl, List.map_cons, if_neg hs]

theorem sqlFieldsWellTyped_of_sqlOKb (data : List (Str × GoVal)) (h : sqlOKb data = true) :
    sqlFieldsWellTyped data := by
  intro v hv
  have hall := List.all_eq_true.mp h (str "sql", v) hv
  simp only [beq_self_eq_true, Bool.not_true, Bool.false_or] at hall
  cases v with
  | vstr s => exact ⟨s, rfl⟩
  | vint n => exact absurd hall (by simp)
  | vother n => exact absurd hall (by simp)

/-! ### Claims C5, C6, C10 — the logging bridge -/

/-- C5: both adapter severity mappings land in the 4-level internal model,
every call with a well-typed field map emits exactly one record (never
dropped, no panic), and any source level outside the explicitly matched
constants — including out-of-range integers — is emitted at Debug severity. -/
theorem logging_severity_total :
    (∀ level : Nat, slogAdapterMap level ≤ 3 ∧
      ∀ (msg : Str) (data : List (Str × GoVal)), sqlFieldsWellTyped data →
        ∃ rec : LogRecord, slogAdapterLog level msg data = some rec ∧
          (level ≠ sqldbLevelError → level ≠ sqldbLevelInfo → level ≠ sqldbLevelDebug →
            rec.sev = Sev.debug)) ∧
    (∀ level : Int, slogPgxAdapterMap level ≤ 3 ∧
      ∀ (msg : Str) (data : List (Str × GoVal)), sqlFieldsWellTyped data →
        ∃ rec : LogRecord, slogPgxAdapterLog level msg data = some rec ∧
          (level ≠ tracelogLevelError → level ≠ tracelogLevelInfo → level ≠ tracelogLevelNone →
            rec.sev = Sev.debug)) := by
  constructor
  · intro level
    constructor
    · unfold slogAdapterMap levelError levelInfo levelDebug levelTrace
      split_ifs <;> omega
    · intro msg data h
      refine ⟨⟨emitSev (slogAdapterMap level), str "DB",
        (data.filter (fun kv => decide (kv.1 ≠ str "time"))).map
            (fun kv =>
              if kv.1 = str "sql" then
                (kv.1,
                  match kv.2 with
                  | GoVal.vstr s => GoVal.vstr (flattenSQL s)
                  | v => v)
              else kv) ++ [(str "sql", GoVal.vstr msg)]⟩, ?_, ?_⟩
      · unfold slogAdapterLog log
        rw [processFields_of_wellTyped data h]
        rfl
      · intro h3 h2 h1
        have hm : slogAdapterMap level = levelTrace := by
          unfold slogAdapterMap
          rw [if_neg h3, if_neg h2, if_neg h1]
        show emitSev (slogAdapterMap level) = Sev.debug
        rw [hm]
        rfl
  · intro level
    constructor
    · unfold slogPgxAdapterMap levelError levelInfo levelDebug levelTrace
      split_ifs <;> omega
    · intro msg data h
      refine ⟨⟨emitSev (slogPgxAdapterMap level), str "DB",
        (data.filter (fun kv => decide (kv.1 ≠ str "time"))).map
            (fun kv =>
              if kv.1 = str "sql" then
                (kv.1,
                  match kv.2 with
                  | GoVal.vstr s => GoVal.vstr (flattenSQL s)
                  | v => v)
              else kv) ++ [(str "sql", GoVal.vstr msg)]⟩, ?_, ?_⟩
      · unfold slogPgxAdapterLog log
        rw [processFields_of_wellTyped data h]
        rfl
      · intro h3 h2 h1
        have h1' : ¬ level = (1 : Int) := h1
        have hm : slogPgxAdapterMap level = levelTrace := by
          unfold slogPgxAdapterMap
          rw [if_neg h3, if_neg h2, if_neg h1']
        show emitSev (slogPgxAdapterMap level) = Sev.debug
        rw [hm]
        rfl

/-- Witness for C5: an out-of-range level of each source enumeration is
emitted at Debug severity. -/
theorem logging_severity_total_witness :
    (∃ rec : LogRecord, slogAdapterLog 7 (str "m") [] = some rec ∧ rec.sev = Sev.debug) ∧
      ∃ rec : LogRecord, slogPgxAdapterLog (-5) (str "m") [] = some rec ∧
        rec.sev = Sev.debug := by
  constructor
  · obtain ⟨rec, hr, hs⟩ :=
      (logging_severity_total.1 7).2 (str "m") [] (fun v hv => absurd hv (List.not_mem_nil _))
    exact ⟨rec, hr, hs (by decide) (by decide) (by decide)⟩
  · obtain ⟨rec, hr, hs⟩ :=
      (logging_severity_total.2 (-5)).2 (str "m") [] (fun v hv => absurd hv (List.not_mem_nil _))
    exact ⟨rec, hr, hs (by decide) (by decide) (by decide)⟩

/-- C6: on every well-typed field map, `log` drops the `time` field,
flattens newlines and tabs of the `sql` field value to single spaces,
passes all other fields through unchanged, and appends the rendered
message as a trailing `sql`-labelled field (`c6ExpectedArgs`). -/
theorem log_field_transformation (level : Nat) (msg : Str) (data : List (Str × GoVal))
    (h : sqlFieldsWellTyped data) :
    log level msg data = some ⟨emitSev level, str "DB", c6ExpectedArgs data msg⟩ := by
  unfold log c6ExpectedArgs
  rw [processFields_of_wellTyped data h]
  simp only [Option.map_some', Option.some.injEq]
  congr 2
  apply List.map_congr_left
  rintro ⟨k, v⟩ -
  cases v <;> simp [flattenSQL_eq_map]

/-- Witness for C6 at a concrete field map exercising all four behaviors. -/
theorem log_field_transformation_witness :
    log 2 (str "q")
        [(str "sql", GoVal.vstr (str "a\nb")), (str "time", GoVal.vint 0),
          (str "k", GoVal.vint 1)] =
      some ⟨emitSev 2, str "DB",
        c6ExpectedArgs
          [(str "sql", GoVal.vstr (str "a\nb")), (str "time", GoVal.vint 0),
            (str "k", GoVal.vint 1)] (str "q")⟩ :=
  log_field_transformation 2 (str "q") _ (sqlFieldsWellTyped_of_sqlOKb _ (by decide))

/-- C10: `log` completes (returns a record) exactly when every value stored
under the `sql` key is a string; a field map carrying a non-string `sql`
value makes the unchecked `v.(string)` assertion panic (modelled `none`). -/
theorem log_none_iff_sql_not_string (level : Nat) (msg : Str) (data : List (Str × GoVal)) :
    log level msg data = none ↔
      ∃ v : GoVal, (str "sql", v) ∈ data ∧ ∀ s : Str, v ≠ GoVal.vstr s := by
  unfold log
  rw [Option.map_eq_none']
  exact processFields_eq_none_iff data

/-- Witness for C10: a non-string `sql` value panics, a string one does not. -/
theorem log_none_iff_sql_not_string_witness :
    log 0 (str "m") [(str "sql", GoVal.vint 3)] = none ∧
      log 0 (str "m") [(str "sql", GoVal.vstr (str "x"))] ≠ none := by
  constructor
  · exact (log_none_iff_sql_not_string 0 (str "m") _).mpr
      ⟨GoVal.vint 3, List.mem_cons_self _ _, fun s hc => GoVal.noConfusion hc⟩
  · intro hc
    obtain ⟨v, hm, hv⟩ := (log_none_iff_sql_not_string 0 (str "m") _).mp hc
    rcases List.mem_cons.mp hm with he | hm'
    · exact hv (str "x") (congrArg Prod.snd he)
    · exact absurd hm' (List.not_mem_nil _)

/-! ### Position and decomposition tools for occurrence counting -/

theorem prefix_getElem? (p x : Str) (h : p <+: x) (i : Nat) (hi : i < p.length) :
    x[i]? = p[i]? := by
  obtain ⟨t, rfl⟩ := h
  rw [List.getElem?_append]
  rw [if_pos hi]

theorem occ_getElem? (p s : Str) (j k : Nat) (h : p <+: s.drop j) (hk : k < p.length) :
    s[j + k]? = p[k]? := by
  have h1 : (s.drop j)[k]? = p[k]? := prefix_getElem? p (s.drop j) h k hk
  rw [List.getElem?_drop] at h1
  exact h1

theorem occ_le (p s : Str) (i : Nat) (hp : p ≠ []) (h : p <+: s.drop i) :
    i + p.length ≤ s.length := by
  have h1 := h.length_le
  rw [List.length_drop] at h1
  have h2 : 1 ≤ p.length := List.length_pos.mpr hp
  omega

theorem getElem?_append_left' (l₁ l₂ : Str) (i : Nat) (hi : i < l₁.length) :
    (l₁ ++ l₂)[i]? = l₁[i]? := by
  rw [List.getElem?_append]
  rw [if_pos hi]

theorem prefix_of_prefix_append (p x y : Str) (h : p <+: x ++ y) (hl : p.length ≤ x.length) :
    p <+: x := by
  have h1 : p = (x ++ y).take p.length := List.prefix_iff_eq_take.mp h
  have h2 : (x ++ y).take p.length = x.take p.length := by
    rw [List.take_append_eq_append_take, Nat.sub_eq_zero_of_le hl, List.take_zero,
      List.append_nil]
  rw [h1, h2]
  exact List.take_prefix _ _

theorem occ_confine (q X Y : Str) (j : Nat) (h : q <+: (X ++ Y).drop j)
    (hj : j + q.length ≤ X.length) : q <+: X.drop j := by
  have hd : (X ++ Y).drop j = X.drop j ++ Y := by
    rw [List.drop_append_eq_append_drop, Nat.sub_eq_zero_of_le (by omega), List.drop_zero]
  rw [hd] at h
  exact prefix_of_prefix_append q (X.drop j) Y h (by rw [List.length_drop]; omega)

theorem occ_extend (p A B : Str) (j : Nat) (h : p <+: A.drop j) (hj : j ≤ A.length) :
    p <+: (A ++ B).drop j := by
  have hd : (A ++ B).drop j = A.drop j ++ B := by
    rw [List.drop_append_eq_append_drop, Nat.sub_eq_zero_of_le hj, List.drop_zero]
  rw [hd]
  exact h.trans (List.prefix_append _ _)

theorem occ_shift (p A B : Str) (j : Nat) (h : p <+: B.drop j) :
    p <+: (A ++ B).drop (A.length + j) := by
  have hd : (A ++ B).drop (A.length + j) = B.drop j := by
    rw [List.drop_append_eq_append_drop, List.drop_eq_nil_of_le (by omega), List.nil_append]
    congr 1
    omega
  rw [hd]
  exact h

theorem occ_of_decomp (p A B : Str) : p <+: (A ++ p ++ B).drop A.length := by
  rw [List.append_assoc, List.drop_append_eq_append_drop, List.drop_length, Nat.sub_self,
    List.drop_zero, List.nil_append]
  exact List.prefix_append p B

theorem decomp_of_occ (p s : Str) (i : Nat) (h : p <+: s.drop i) :
    s = s.take i ++ p ++ s.drop (i + p.length) := by
  obtain ⟨t, ht⟩ := h
  have htd : t = s.drop (i + p.length) := by
    have h1 : (s.drop i).drop p.length = t := by rw [← ht, List.drop_left]
    rw [List.drop_drop] at h1
    exact h1.symm
  rw [List.append_assoc, ← htd, ht, List.take_append_drop]

theorem infix_of_occ (p s : Str) (i : Nat) (h : p <+: s.drop i) : p <:+: s :=
  (infix_iff_exists_drop p s).mpr ⟨i, h⟩

theorem infix_of_infix_part (p X A B : Str) (h : p <:+: X) : p <:+: A ++ X ++ B :=
  h.trans ⟨A, B, rfl⟩

/-! ### Replace and split under unique occurrences -/

theorem goReplace_no_occ (p r : Str) (hp : p ≠ []) :
    ∀ s : Str, occCount p s = 0 → goReplace s p r = s := by
  intro s
  induction s with
  | nil => intro _; exact goReplace_nil _ _ hp
  | cons c t ih =>
    intro h
    rw [occCount_cons] at h
    have hnp : ¬ p.isPrefixOf (c :: t) := by
      intro hb
      rw [if_pos hb] at h
      omega
    rw [goReplace_cons _ _ _ _ hp, if_neg hnp, ih (by rw [if_neg hnp] at h; omega)]

theorem goSplit_no_occ (p : Str) (hp : p ≠ []) :
    ∀ s : Str, occCount p s = 0 → goSplit s p = [s] := by
  intro s
  induction s with
  | nil => intro _; exact goSplit_nil _ hp
  | cons c t ih =>
    intro h
    rw [occCount_cons] at h
    have hnp : ¬ p.isPrefixOf (c :: t) := by
      intro hb
      rw [if_pos hb] at h
      omega
    rw [goSplit_cons _ _ _ hp, if_neg hnp, ih (by rw [if_neg hnp] at h; omega)]

theorem occCount_tail_zero (p : Str) (hp : p ≠ []) (B : Str)
    (h : occCount p (p ++ B) = 1) : occCount p B = 0 := by
  obtain ⟨i0, hi0, hu⟩ := (occCount_eq_one_iff p hp (p ++ B)).mp h
  have hz : (0 : Nat) = i0 := hu 0 (by rw [List.drop_zero]; exact List.prefix_append p B)
  rw [occCount_eq_zero_iff p hp B]
  intro j hj
  have := hu (p.length + j) (occ_shift p p B j hj)
  have hlen : 1 ≤ p.length := List.length_pos.mpr hp
  omega

theorem goReplace_unique (p r : Str) (hp : p ≠ []) :
    ∀ A s B : Str, occCount p s = 1 → s = A ++ p ++ B → goReplace s p r = A ++ r ++ B := by
  intro A
  induction A with
  | nil =>
    intro s B h hs
    rw [List.nil_append] at hs
    subst hs
    obtain ⟨c, t, hct⟩ : ∃ c t, p = c :: t := by
      cases p with
      | nil => exact absurd rfl hp
      | cons c t => exact ⟨c, t, rfl⟩
    have hpre : p.isPrefixOf (p ++ B) := List.isPrefixOf_iff_prefix.mpr (List.prefix_append p B)
    have hcons : p ++ B = c :: (t ++ B) := by rw [hct]; rfl
    rw [hcons, goReplace_cons _ _ _ _ hp, ← hcons, if_pos hpre]
    have hdrop : (p ++ B).drop p.length = B := List.drop_left p B
    rw [hdrop, goReplace_no_occ p r hp B (occCount_tail_zero p hp B h), List.nil_append]
  | cons a A' ih =>
    intro s B h hs
    subst hs
    have hcons : a :: A' ++ p ++ B = a :: (A' ++ p ++ B) := rfl
    obtain ⟨i0, hi0, hu⟩ := (occCount_eq_one_iff p hp _).mp h
    have hcanon : i0 = (a :: A').length := by
      apply (hu _ _).symm
      exact occ_of_decomp p (a :: A') B
    have hnp : ¬ p.isPrefixOf (a :: A' ++ p ++ B) := by
      intro hb
      have h0 : (0 : Nat) = i0 :=
        hu 0 (by rw [List.drop_zero]; exact List.isPrefixOf_iff_prefix.mp hb)
      rw [hcanon] at h0
      simp at h0
    rw [hcons, goReplace_cons _ _ _ _ hp, if_neg (by rw [← hcons]; exact hnp)]
    have htail : occCount p (A' ++ p ++ B) = 1 := by
      have hnp' : ¬ p.isPrefixOf (a :: (A' ++ p ++ B)) := hnp
      have hc := occCount_cons p a (A' ++ p ++ B)
      rw [if_neg hnp'] at hc
      have h' : occCount p (a :: (A' ++ p ++ B)) = 1 := h
      omega
    rw [ih (A' ++ p ++ B) B htail rfl]
    rfl

theorem goSplit_unique (p : Str) (hp : p ≠ []) :
    ∀ A s B : Str, occCount p s = 1 → s = A ++ p ++ B → goSplit s p = [A, B] := by
  intro A
  induction A with
  | nil =>
    intro s B h hs
    rw [List.nil_append] at hs
    subst hs
    obtain ⟨c, t, hct⟩ : ∃ c t, p = c :: t := by
      cases p with
      | nil => exact absurd rfl hp
      | cons c t => exact ⟨c, t, rfl⟩
    have hpre : p.isPrefixOf (p ++ B) := List.isPrefixOf_iff_prefix.mpr (List.prefix_append p B)
    have hcons : p ++ B = c :: (t ++ B) := by rw [hct]; rfl
    rw [hcons, goSplit_cons _ _ _ hp, ← hcons, if_pos hpre]
    have hdrop : (p ++ B).drop p.length = B := List.drop_left p B
    rw [hdrop, goSplit_no_occ p hp B (occCount_tail_zero p hp B h)]
  | cons a A' ih =>
    intro s B h hs
    subst hs
    have hcons : a :: A' ++ p ++ B = a :: (A' ++ p ++ B) := rfl
    obtain ⟨i0, hi0, hu⟩ := (occCount_eq_one_iff p hp _).mp h
    have hcanon : i0 = (a :: A').length := by
      apply (hu _ _).symm
      exact occ_of_decomp p (a :: A') B
    have hnp : ¬ p.isPrefixOf (a :: A' ++ p ++ B) := by
      intro hb
      have h0 : (0 : Nat) = i0 :=
        hu 0 (by rw [List.drop_zero]; exact List.isPrefixOf_iff_prefix.mp hb)
      rw [hcanon] at h0
      simp at h0
    rw [hcons, goSplit_cons _ _ _ hp, if_neg (by rw [← hcons]; exact hnp)]
    have htail : occCount p (A' ++ p ++ B) = 1 := by
      have hnp' : ¬ p.isPrefixOf (a :: (A' ++ p ++ B)) := hnp
      have hc := occCount_cons p a (A' ++ p ++ B)
      rw [if_neg hnp'] at hc
      have h' : occCount p (a :: (A' ++ p ++ B)) = 1 := h
      omega
    rw [ih (A' ++ p ++ B) B htail rfl]

/-! ### Structure of `goSplit` components -/

theorem goSplit_ne_nil (sep : Str) (hsep : sep ≠ []) : ∀ s : Str, goSplit s sep ≠ [] := by
  intro s
  cases s with
  | nil => rw [goSplit_nil _ hsep]; simp
  | cons c t =>
    rw [goSplit_cons _ _ _ hsep]
    by_cases hp : sep.isPrefixOf (c :: t)
    · rw [if_pos hp]; simp
    · rw [if_neg hp]
      cases goSplit t sep with
      | nil => simp
      | cons y ys => simp

theorem goSplit_single (sep : Str) (hsep : sep ≠ []) :
    ∀ s x : Str, goSplit s sep = [x] → s = x := by
  intro s
  induction s with
  | nil =>
    intro x h
    rw [goSplit_nil _ hsep] at h
    exact (List.cons.injEq _ _ _ _ ▸ h).1.symm ▸ rfl
  | cons c t ih =>
    intro x h
    rw [goSplit_cons _ _ _ hsep] at h
    by_cases hp : sep.isPrefixOf (c :: t)
    · rw [if_pos hp] at h
      have h2 := congrArg List.tail h
      simp only [List.tail_cons] at h2
      exact absurd h2 (goSplit_ne_nil sep hsep _)
    · rw [if_neg hp] at h
      cases hL : goSplit t sep with
      | nil => exact absurd hL (goSplit_ne_nil sep hsep t)
      | cons y ys =>
        rw [hL] at h
        cases ys with
        | nil =>
          have h1 : c :: y = x := (List.cons.injEq _ _ _ _ ▸ h).1
          have h2 : t = y := ih y hL
          rw [← h1, h2]
        | cons z zs =>
          have h2 := congrArg List.length h
          simp at h2

theorem getLastD_indep (L : List Str) (d1 d2 : Str) (h : L ≠ []) :
    L.getLastD d1 = L.getLastD d2 := by
  rw [List.getLastD_eq_getLast?, List.getLastD_eq_getLast?]
  obtain ⟨x, hx⟩ := Option.isSome_iff_exists.mp (List.getLast?_isSome.mpr h)
  rw [hx]
  rfl

theorem lastSplit_spec : ∀ s : Str,
    ∃ rest : Str, s = rest ++ (goSplit s [' ']).getLastD [] ∧
      (∀ c ∈ (goSplit s [' ']).getLastD [], c ≠ ' ') ∧
      ((goSplit s [' ']).getLastD [] = [] → s = [] ∨ s.getLast? = some ' ') := by
  intro s
  induction s with
  | nil =>
    refine ⟨[], by rw [goSplit_nil _ (by simp)]; rfl, ?_, ?_⟩
    · rw [goSplit_nil _ (by simp)]
      intro c hc
      simp at hc
    · intro _
      exact Or.inl rfl
  | cons c t ih =>
    obtain ⟨rest', e1, e2, e3⟩ := ih
    rw [goSplit_cons _ _ _ (by simp)]
    by_cases hc : c = ' '
    · have hp : [' '].isPrefixOf (c :: t) = true := by
        simp [List.isPrefixOf, hc]
      rw [if_pos hp]
      have hdrop : (c :: t).drop ([' '] : Str).length = t := by simp
      rw [hdrop]
      have hlast : ([] :: goSplit t [' ']).getLastD [] = (goSplit t [' ']).getLastD [] := by
        rw [List.getLastD_cons]
      rw [hlast]
      refine ⟨c :: rest', ?_, e2, ?_⟩
      · rw [List.cons_append, ← e1]
      · intro hnil
        rcases e3 hnil with ht | ht
        · subst ht
          subst hc
          exact Or.inr rfl
        · right
          cases t with
          | nil => simp at ht
          | cons u us => rw [List.getLast?_cons_cons]; exact ht
    · have hp : ¬ ([' '].isPrefixOf (c :: t) = true) := by
        intro hb
        have hbc : ' ' = c := by simpa [List.isPrefixOf] using hb
        exact hc hbc.symm
      rw [if_neg hp]
      cases hL : goSplit t [' '] with
      | nil => exact absurd hL (goSplit_ne_nil [' '] (by simp) t)
      | cons y ys =>
        have hred : (match (y :: ys : List Str) with
            | [] => [[c]]
            | x :: xs => (c :: x) :: xs) = (c :: y) :: ys := rfl
        rw [hred]
        cases ys with
        | nil =>
          have hty : t = y := goSplit_single [' '] (by simp) t y hL
          have hgl : ((c :: y) :: ([] : List Str)).getLastD [] = c :: y := rfl
          rw [hgl]
          have e2' : ∀ ch ∈ ([y] : List Str).getLastD [], ch ≠ ' ' := by
            rw [← hL]; exact e2
          refine ⟨[], by rw [List.nil_append, hty], ?_, ?_⟩
          · intro ch hch
            rcases List.mem_cons.mp hch with hh | hh
            · exact fun hx => hc (by rw [← hh]; exact hx)
            · exact e2' ch hh
          · intro habs
            exact absurd habs (by simp)
        | cons z zs =>
          have hgl : ((c :: y) :: z :: zs).getLastD [] = (y :: z :: zs).getLastD [] := by
            have a1 := List.getLastD_cons ([] : Str) (c :: y) (z :: zs)
            have a2 := List.getLastD_cons ([] : Str) y (z :: zs)
            rw [a1, a2]
            exact getLastD_indep (z :: zs) (c :: y) y (by simp)
          rw [hgl]
          have e1' : t = rest' ++ (y :: z :: zs).getLastD [] := by rw [← hL]; exact e1
          have e2' : ∀ ch ∈ (y :: z :: zs).getLastD [], ch ≠ ' ' := by rw [← hL]; exact e2
          have e3' : (y :: z :: zs).getLastD [] = [] → t = [] ∨ t.getLast? = some ' ' := by
            rw [← hL]; exact e3
          refine ⟨c :: rest', by rw [List.cons_append, ← e1'], e2', ?_⟩
          intro hnil
          rcases e3' hnil with ht | ht
          · subst ht
            rw [goSplit_nil _ (by simp)] at hL
            exact absurd (congrArg List.length hL) (by simp)
          · right
            cases t with
            | nil =>
              rw [goSplit_nil _ (by simp)] at hL
              exact absurd (congrArg List.length hL) (by simp)
            | cons u us => rw [List.getLast?_cons_cons]; exact ht

/-! ### Character facts about digits and the pattern strings -/

theorem digitChar_mem_digits (d : Nat) : digitChar d ∈ str "0123456789" := by
  unfold digitChar
  split_ifs <;> decide

theorem itoaF_digits :
    ∀ (f n : Nat) (acc : Str), (∀ c ∈ acc, c ∈ str "0123456789") →
      ∀ c ∈ itoaF f n acc, c ∈ str "0123456789" := by
  intro f
  induction f with
  | zero =>
    intro n acc hacc c hc
    rcases List.mem_cons.mp hc with hh | hh
    · rw [hh]; exact digitChar_mem_digits _
    · exact hacc c hh
  | succ f ih =>
    intro n acc hacc c hc
    rw [itoaF] at hc
    by_cases hn : n < 10
    · rw [if_pos hn] at hc
      rcases List.mem_cons.mp hc with hh | hh
      · rw [hh]; exact digitChar_mem_digits _
      · exact hacc c hh
    · rw [if_neg hn] at hc
      refine ih (n / 10) _ ?_ c hc
      intro c' hc'
      rcases List.mem_cons.mp hc' with hh | hh
      · rw [hh]; exact digitChar_mem_digits _
      · exact hacc c' hh

theorem itoa_digits (n : Nat) : ∀ c ∈ itoa n, c ∈ str "0123456789" :=
  itoaF_digits n n [] (fun c hc => absurd hc (List.not_mem_nil c))

theorem itoaF_ne_nil : ∀ (f n : Nat) (acc : Str), itoaF f n acc ≠ [] := by
  intro f
  induction f with
  | zero => intro n acc; simp [itoaF]
  | succ f ih =>
    intro n acc
    rw [itoaF]
    by_cases hn : n < 10
    · rw [if_pos hn]; simp
    · rw [if_neg hn]; exact ih (n / 10) _

theorem itoa_ne_nil (n : Nat) : itoa n ≠ [] := itoaF_ne_nil n n []

theorem digit_not_special : ∀ c ∈ str "0123456789",
    c ≠ ' ' ∧ c ≠ 's' ∧ c ≠ '$' ∧ c ≠ 'S' := by decide

theorem p13_space_pos : ∀ k, k < 13 →
    ((str "site_ulid = $")[k]? = some ' ' → k = 9 ∨ k = 11) := by decide

theorem p13_s_pos : ∀ k, k < 13 → ((str "site_ulid = $")[k]? = some 's' → k = 0) := by decide

theorem p13_dollar_pos : ∀ k, k < 13 → ((str "site_ulid = $")[k]? = some '$' → k = 12) := by
  decide

theorem p13_len : (str "site_ulid = $").length = 13 := by decide

theorem getElem?_some_lt {l : Str} {i : Nat} {a : Char} (h : l[i]? = some a) : i < l.length := by
  rcases List.getElem?_eq_some.mp h with ⟨hlt, -⟩
  exact hlt

/-- The predicate text `q = "site_ulid = $" ++ d` for a digit tail `d`:
positions of `' '` are exactly 9 and 11. -/
theorem q_space_pos (d : Str) (hd : ∀ c ∈ d, c ∈ str "0123456789") (k : Nat)
    (h : (str "site_ulid = $" ++ d)[k]? = some ' ') : k = 9 ∨ k = 11 := by
  by_cases hk : k < 13
  · rw [getElem?_append_left' _ _ _ (by rw [p13_len]; exact hk)] at h
    exact p13_space_pos k hk h
  · rw [List.getElem?_append_right (by rw [p13_len]; omega)] at h
    have hmem : ' ' ∈ d := List.getElem?_mem h
    exact absurd rfl (digit_not_special ' ' (hd ' ' hmem)).1

/-- In `q` the rune `'s'` occurs only at position 0. -/
theorem q_s_pos (d : Str) (hd : ∀ c ∈ d, c ∈ str "0123456789") (k : Nat)
    (h : (str "site_ulid = $" ++ d)[k]? = some 's') : k = 0 := by
  by_cases hk : k < 13
  · rw [getElem?_append_left' _ _ _ (by rw [p13_len]; exact hk)] at h
    exact p13_s_pos k hk h
  · rw [List.getElem?_append_right (by rw [p13_len]; omega)] at h
    have hmem : 's' ∈ d := List.getElem?_mem h
    exact absurd rfl (digit_not_special 's' (hd 's' hmem)).2.1

/-- In `q` the rune `'$'` occurs only at position 12. -/
theorem q_dollar_pos (d : Str) (hd : ∀ c ∈ d, c ∈ str "0123456789") (k : Nat)
    (h : (str "site_ulid = $" ++ d)[k]? = some '$') : k = 12 := by
  by_cases hk : k < 13
  · rw [getElem?_append_left' _ _ _ (by rw [p13_len]; exact hk)] at h
    exact p13_dollar_pos k hk h
  · rw [List.getElem?_append_right (by rw [p13_len]; omega)] at h
    have hmem : '$' ∈ d := List.getElem?_mem h
    exact absurd rfl (digit_not_special '$' (hd '$' hmem)).2.2.1

theorem q_at_0 (d : Str) : (str "site_ulid = $" ++ d)[0]? = some 's' := by
  rw [getElem?_append_left' _ _ _ (by rw [p13_len]; omega)]
  decide

theorem q_at_10 (d : Str) : (str "site_ulid = $" ++ d)[10]? = some '=' := by
  rw [getElem?_append_left' _ _ _ (by rw [p13_len]; omega)]
  decide

theorem q_at_12 (d : Str) : (str "site_ulid = $" ++ d)[12]? = some '$' := by
  rw [getElem?_append_left' _ _ _ (by rw [p13_len]; omega)]
  decide

theorem q_at_13 (d : Str) : (str "site_ulid = $" ++ d)[13]? = d[0]? := by
  rw [List.getElem?_append_right (by rw [p13_len])]
  rfl

theorem q_len (d : Str) : (str "site_ulid = $" ++ d).length = 13 + d.length := by
  rw [List.length_append, p13_len]

/-! ### Occurrence uniqueness after the bare-placeholder rewrite -/

theorem getElem?_append_offset (A R : Str) (k : Nat) : (A ++ R)[A.length + k]? = R[k]? := by
  rw [List.getElem?_append_right (by omega)]
  congr 1
  omega

theorem occ_in_right (p X Y : Str) (j : Nat) (h : p <+: (X ++ Y).drop j)
    (hj : X.length ≤ j) : p <+: Y.drop (j - X.length) := by
  have hd : (X ++ Y).drop j = Y.drop (j - X.length) := by
    rw [List.drop_append_eq_append_drop, List.drop_eq_nil_of_le hj, List.nil_append]
  rw [hd] at h
  exact h

theorem drop_cons_of_pos (c : Char) (l : Str) (m : Nat) (hm : 1 ≤ m) :
    (c :: l).drop m = l.drop (m - 1) := by
  obtain ⟨m', rfl⟩ : ∃ m', m = m' + 1 := ⟨m - 1, by omega⟩
  rw [List.drop_succ_cons]
  congr 1

/-- After the bare-placeholder rewrite the predicate text occurs exactly once
in `A ++ " site_ulid = $N" ++ B`, provided neither flank contains the
predicate prefix. -/
theorem count_one_bare (A B d : Str)
    (hdig : ∀ c ∈ d, c ∈ str "0123456789")
    (hA : ¬ (str "site_ulid = $") <:+: A) (hB : ¬ (str "site_ulid = $") <:+: B) :
    occCount (str "site_ulid = $" ++ d)
      (A ++ (' ' :: (str "site_ulid = $" ++ d)) ++ B) = 1 := by
  set q : Str := str "site_ulid = $" ++ d with hq
  have hqlen : q.length = 13 + d.length := q_len d
  have hqnil : q ≠ [] := by
    intro hc
    have hlc := congrArg List.length hc
    rw [hqlen] at hlc
    simp at hlc
  have hpq : (str "site_ulid = $") <+: q := by
    rw [hq]
    exact List.prefix_append _ _
  rw [List.append_assoc]
  show occCount q (A ++ (' ' :: (q ++ B))) = 1
  apply count_one_of_unique q _ hqnil (A.length + 1)
  · have hdrop : (A ++ (' ' :: (q ++ B))).drop (A.length + 1) = q ++ B := by
      rw [List.drop_append_eq_append_drop, List.drop_eq_nil_of_le (by omega), List.nil_append]
      have h1 : A.length + 1 - A.length = 1 := by omega
      rw [h1]
      rfl
    rw [hdrop]
    exact List.prefix_append q B
  · intro j hj
    by_cases case4 : A.length + 1 + q.length ≤ j
    · exfalso
      have hb1 : q <+: (' ' :: (q ++ B)).drop (j - A.length) :=
        occ_in_right q A _ j hj (by omega)
      rw [drop_cons_of_pos _ _ _ (by omega)] at hb1
      have hb2 : q <+: B.drop (j - A.length - 1 - q.length) :=
        occ_in_right q q B _ hb1 (by omega)
      exact hB (hpq.isInfix.trans (infix_of_occ q B _ hb2))
    · by_cases case1 : j + q.length ≤ A.length
      · exfalso
        have hconf : q <+: A.drop j := occ_confine q A (' ' :: (q ++ B)) j hj case1
        exact hA (hpq.isInfix.trans (infix_of_occ q A j hconf))
      · by_cases caseJA : j ≤ A.length
        · exfalso
          have ht1 : A.length - j < q.length := by omega
          have he1 : (A ++ (' ' :: (q ++ B)))[j + (A.length - j)]? = q[A.length - j]? :=
            occ_getElem? q _ j (A.length - j) hj ht1
          have hidx : j + (A.length - j) = A.length + 0 := by omega
          rw [hidx, getElem?_append_offset] at he1
          have hsp : q[A.length - j]? = some ' ' := by rw [← he1]; rfl
          have ht9 : A.length - j = 9 ∨ A.length - j = 11 := by
            rw [hq] at hsp
            exact q_space_pos d hdig _ hsp
          have ht2 : A.length - j + 1 < q.length := by rw [hqlen]; omega
          have he2 : (A ++ (' ' :: (q ++ B)))[j + (A.length - j + 1)]? = q[A.length - j + 1]? :=
            occ_getElem? q _ j _ hj ht2
          have hidx2 : j + (A.length - j + 1) = A.length + 1 := by omega
          rw [hidx2, getElem?_append_offset] at he2
          have hs1 : (' ' :: (q ++ B))[1]? = some 's' := by
            rw [List.getElem?_cons_succ,
              getElem?_append_left' q B 0 (by rw [hqlen]; omega), hq]
            exact q_at_0 d
          rw [hs1] at he2
          rcases ht9 with ht | ht
          · rw [ht] at he2
            have h10 : q[9 + 1]? = some '=' := by rw [hq]; exact q_at_10 d
            rw [h10] at he2
            exact absurd he2 (by decide)
          · rw [ht] at he2
            have h12 : q[11 + 1]? = some '$' := by rw [hq]; exact q_at_12 d
            rw [h12] at he2
            exact absurd he2 (by decide)
        · by_cases hk0 : j = A.length + 1
          · exact hk0
          · exfalso
            have hkb : A.length + 1 < j := by omega
            have hkq : j - (A.length + 1) < q.length := by omega
            have he : (A ++ (' ' :: (q ++ B)))[j + 0]? = q[0]? :=
              occ_getElem? q _ j 0 hj (by rw [hqlen]; omega)
            have hidx : j + 0 = A.length + (j - A.length) := by omega
            rw [hidx, getElem?_append_offset] at he
            have hsub : j - A.length = (j - (A.length + 1)) + 1 := by omega
            rw [hsub, List.getElem?_cons_succ,
              getElem?_append_left' q B _ hkq] at he
            have hq0 : q[0]? = some 's' := by rw [hq]; exact q_at_0 d
            rw [hq0] at he
            have hks : j - (A.length + 1) = 0 := by
              rw [hq] at he
              exact q_s_pos d hdig _ he
            omega

/-- After the table-qualified rewrite the predicate text occurs exactly once
in `A ++ " and " ++ pfx ++ "site_ulid = $N" ++ B`, provided no flank and not
the qualifier contains the predicate prefix. -/
theorem count_one_qualified (A pfx B d : Str)
    (hdig : ∀ c ∈ d, c ∈ str "0123456789")
    (hA : ¬ (str "site_ulid = $") <:+: A)
    (hP : ¬ (str "site_ulid = $") <:+: pfx)
    (hB : ¬ (str "site_ulid = $") <:+: B) :
    occCount (str "site_ulid = $" ++ d)
      (A ++ (str " and " ++ (pfx ++ (str "site_ulid = $" ++ d))) ++ B) = 1 := by
  set q : Str := str "site_ulid = $" ++ d with hq
  have hqlen : q.length = 13 + d.length := q_len d
  have hqnil : q ≠ [] := by
    intro hc
    have hlc := congrArg List.length hc
    rw [hqlen] at hlc
    simp at hlc
  have hpq : (str "site_ulid = $") <+: q := by
    rw [hq]
    exact List.prefix_append _ _
  have h5 : (str " and ").length = 5 := by decide
  simp only [List.append_assoc]
  show occCount q (A ++ (str " and " ++ (pfx ++ (q ++ B)))) = 1
  apply count_one_of_unique q _ hqnil (A.length + (5 + pfx.length))
  · have hdrop : (A ++ (str " and " ++ (pfx ++ (q ++ B)))).drop (A.length + (5 + pfx.length))
        = q ++ B := by
      rw [List.drop_append_eq_append_drop, List.drop_eq_nil_of_le (by omega), List.nil_append]
      have h1 : A.length + (5 + pfx.length) - A.length = 5 + pfx.length := by omega
      rw [h1, List.drop_append_eq_append_drop, List.drop_eq_nil_of_le (by omega),
        List.nil_append, h5]
      have h2 : 5 + pfx.length - 5 = pfx.length := by omega
      rw [h2, List.drop_append_eq_append_drop, List.drop_eq_nil_of_le (by omega),
        List.nil_append, Nat.sub_self, List.drop_zero]
    rw [hdrop]
    exact List.prefix_append q B
  · intro j hj
    by_cases caseB : A.length + (5 + pfx.length) + q.length ≤ j
    · exfalso
      have hb1 : q <+: (str " and " ++ (pfx ++ (q ++ B))).drop (j - A.length) :=
        occ_in_right q A _ j hj (by omega)
      have hb2 : q <+: (pfx ++ (q ++ B)).drop (j - A.length - (str " and ").length) :=
        occ_in_right q _ _ _ hb1 (by rw [h5]; omega)
      have hb3 : q <+: (q ++ B).drop (j - A.length - (str " and ").length - pfx.length) :=
        occ_in_right q _ _ _ hb2 (by rw [h5]; omega)
      have hb4 : q <+: B.drop (j - A.length - (str " and ").length - pfx.length - q.length) :=
        occ_in_right q _ _ _ hb3 (by rw [h5]; omega)
      exact hB (hpq.isInfix.trans (infix_of_occ q B _ hb4))
    · by_cases caseA : j + q.length ≤ A.length
      · exfalso
        have hconf : q <+: A.drop j := occ_confine q A _ j hj caseA
        exact hA (hpq.isInfix.trans (infix_of_occ q A j hconf))
      · by_cases caseJA : j ≤ A.length
        · -- straddle out of A: the boundary rune is ' ', the next is 'a'
          exfalso
          have ht1 : A.length - j < q.length := by omega
          have he1 : (A ++ (str " and " ++ (pfx ++ (q ++ B))))[j + (A.length - j)]?
              = q[A.length - j]? := occ_getElem? q _ j (A.length - j) hj ht1
          have hidx : j + (A.length - j) = A.length + 0 := by omega
          rw [hidx, getElem?_append_offset] at he1
          have hsp0 : (str " and " ++ (pfx ++ (q ++ B)))[0]? = some ' ' := by
            rw [getElem?_append_left' _ _ 0 (by rw [h5]; omega)]
            decide
          rw [hsp0] at he1
          have ht9 : A.length - j = 9 ∨ A.length - j = 11 := by
            rw [hq] at he1
            exact q_space_pos d hdig _ he1.symm
          have ht2 : A.length - j + 1 < q.length := by rw [hqlen]; omega
          have he2 : (A ++ (str " and " ++ (pfx ++ (q ++ B))))[j + (A.length - j + 1)]?
              = q[A.length - j + 1]? := occ_getElem? q _ j _ hj ht2
          have hidx2 : j + (A.length - j + 1) = A.length + 1 := by omega
          rw [hidx2, getElem?_append_offset] at he2
          have hsa : (str " and " ++ (pfx ++ (q ++ B)))[1]? = some 'a' := by
            rw [getElem?_append_left' _ _ 1 (by rw [h5]; omega)]
            decide
          rw [hsa] at he2
          rcases ht9 with ht | ht
          · rw [ht] at he2
            have h10 : q[9 + 1]? = some '=' := by rw [hq]; exact q_at_10 d
            rw [h10] at he2
            exact absurd he2 (by decide)
          · rw [ht] at he2
            have h12 : q[11 + 1]? = some '$' := by rw [hq]; exact q_at_12 d
            rw [h12] at he2
            exact absurd he2 (by decide)
        · by_cases caseAnd : j < A.length + 5
          · -- starts inside " and ": first rune of q would be in " and "
            exfalso
            have he : (A ++ (str " and " ++ (pfx ++ (q ++ B))))[j + 0]? = q[0]? :=
              occ_getElem? q _ j 0 hj (by rw [hqlen]; omega)
            have hidx : j + 0 = A.length + (j - A.length) := by omega
            rw [hidx, getElem?_append_offset] at he
            have hjlt : j - A.length < (str " and ").length := by rw [h5]; omega
            rw [getElem?_append_left' _ _ _ hjlt] at he
            have hq0 : q[0]? = some 's' := by rw [hq]; exact q_at_0 d
            rw [hq0] at he
            have hno : ∀ k, k < 5 → ¬ ((str " and ")[k]? = some 's') := by decide
            exact hno (j - A.length) (by omega) he
          · by_cases casePfx : j < A.length + 5 + pfx.length
            · -- starts inside the qualifier
              exfalso
              by_cases hfull : j - (A.length + 5) + q.length ≤ pfx.length
              · -- the occurrence would sit entirely inside the qualifier
                have hb1 : q <+: (str " and " ++ (pfx ++ (q ++ B))).drop (j - A.length) :=
                  occ_in_right q A _ j hj (by omega)
                have hb2 : q <+: (pfx ++ (q ++ B)).drop (j - A.length - (str " and ").length) :=
                  occ_in_right q _ _ _ hb1 (by rw [h5]; omega)
                have hsub : j - A.length - (str " and ").length = j - (A.length + 5) := by
                  rw [h5]; omega
                rw [hsub] at hb2
                have hconf : q <+: pfx.drop (j - (A.length + 5)) :=
                  occ_confine q pfx _ _ hb2 (by omega)
                exact hP (hpq.isInfix.trans (infix_of_occ q pfx _ hconf))
              · -- the occurrence runs past the qualifier into "site_ulid = $N"
                have ht1 : A.length + 5 + pfx.length - j < q.length := by omega
                have he := occ_getElem? q (A ++ (str " and " ++ (pfx ++ (q ++ B)))) j
                  (A.length + 5 + pfx.length - j) hj ht1
                have hidx : j + (A.length + 5 + pfx.length - j)
                    = A.length + (5 + pfx.length) := by omega
                rw [hidx, getElem?_append_offset] at he
                have hidx2 : 5 + pfx.length = (str " and ").length + pfx.length := by
                  rw [h5]
                rw [hidx2, getElem?_append_offset] at he
                have hidx3 : pfx.length = pfx.length + 0 := by omega
                rw [hidx3, getElem?_append_offset] at he
                rw [getElem?_append_left' q B 0 (by rw [hqlen]; omega)] at he
                have hq0 : q[0]? = some 's' := by rw [hq]; exact q_at_0 d
                rw [hq0] at he
                have hks : A.length + 5 + pfx.length - j = 0 := by
                  rw [hq] at he
                  exact q_s_pos d hdig _ he.symm
                omega
            · by_cases hk0 : j = A.length + (5 + pfx.length)
              · exact hk0
              · -- starts strictly inside "site_ulid = $N"
                exfalso
                have hkb : A.length + (5 + pfx.length) < j := by omega
                have hkq : j - (A.length + (5 + pfx.length)) < q.length := by omega
                have he := occ_getElem? q (A ++ (str " and " ++ (pfx ++ (q ++ B)))) j 0 hj
                  (by rw [hqlen]; omega)
                have hidx : j + 0 = A.length + (j - A.length) := by omega
                rw [hidx, getElem?_append_offset] at he
                have hidx2 : j - A.length = (str " and ").length + (j - A.length - 5) := by
                  rw [h5]; omega
                rw [hidx2, getElem?_append_offset] at he
                have hidx3 : j - A.length - 5 = pfx.length + (j - A.length - 5 - pfx.length) := by
                  omega
                rw [hidx3, getElem?_append_offset] at he
                have hklt : j - A.length - 5 - pfx.length < q.length := by omega
                rw [getElem?_append_left' q B _ hklt] at he
                have hq0 : q[0]? = some 's' := by rw [hq]; exact q_at_0 d
                rw [hq0] at he
                have hks : j - A.length - 5 - pfx.length = 0 := by
                  rw [hq] at he
                  exact q_s_pos d hdig _ he
                omega

/-! ### The qualified rewrite leaves no placeholder and no guard substring -/

theorem p9_no_space : ∀ k, k < 9 → ¬ ((str "$SITEULID")[k]? = some ' ') := by decide

theorem p9_no_s : ∀ k, k < 9 → ¬ ((str "$SITEULID")[k]? = some 's') := by decide

theorem p9_at_0 : (str "$SITEULID")[0]? = some '$' := by decide

theorem p9_at_1 : (str "$SITEULID")[1]? = some 'S' := by decide

theorem p9_len : (str "$SITEULID").length = 9 := by decide

theorem and5_no_s : ∀ k, k < 5 → ¬ ((str " and ")[k]? = some 's') := by decide

theorem and5_no_dollar : ∀ k, k < 5 → ¬ ((str " and ")[k]? = some '$') := by decide

/-- After the table-qualified rewrite, the placeholder token does not occur
in `A ++ " and " ++ pfx ++ "site_ulid = $N" ++ B` provided it occurs in no
component. -/
theorem no_placeholder_qualified (A pfx B d : Str)
    (hdig : ∀ c ∈ d, c ∈ str "0123456789") (hdnil : d ≠ [])
    (hA : ¬ (str "$SITEULID") <:+: A) (hP : ¬ (str "$SITEULID") <:+: pfx)
    (hB : ¬ (str "$SITEULID") <:+: B) :
    ¬ (str "$SITEULID") <:+:
      (A ++ (str " and " ++ (pfx ++ (str "site_ulid = $" ++ d))) ++ B) := by
  set q : Str := str "site_ulid = $" ++ d with hq
  have hqlen : q.length = 13 + d.length := q_len d
  have h5 : (str " and ").length = 5 := by decide
  have h9 : (str "$SITEULID").length = 9 := p9_len
  intro hin
  rw [List.append_assoc] at hin
  have hin' : (str "$SITEULID") <:+: (A ++ (str " and " ++ (pfx ++ (q ++ B)))) := by
    have he : (str " and " ++ (pfx ++ q)) ++ B = str " and " ++ (pfx ++ (q ++ B)) := by
      simp [List.append_assoc]
    rw [← he]
    exact hin
  obtain ⟨j, hj⟩ := (infix_iff_exists_drop _ _).mp hin'
  by_cases caseB : A.length + (5 + pfx.length) + q.length ≤ j
  · have hb1 := occ_in_right _ A _ j hj (by omega)
    have hb2 := occ_in_right _ _ _ _ hb1 (by rw [h5]; omega)
    have hb3 := occ_in_right _ _ _ _ hb2 (by rw [h5]; omega)
    have hb4 := occ_in_right _ _ _ _ hb3 (by rw [h5]; omega)
    exact hB (infix_of_occ _ B _ hb4)
  · by_cases caseA : j + 9 ≤ A.length
    · have hconf : (str "$SITEULID") <+: A.drop j :=
        occ_confine _ A _ j hj (by rw [h9]; omega)
      exact hA (infix_of_occ _ A j hconf)
    · by_cases caseJA : j ≤ A.length
      · have ht1 : A.length - j < 9 := by omega
        have he1 := occ_getElem? _ _ j (A.length - j) hj (by rw [h9]; exact ht1)
        have hidx : j + (A.length - j) = A.length + 0 := by omega
        rw [hidx, getElem?_append_offset] at he1
        have hsp0 : (str " and " ++ (pfx ++ (q ++ B)))[0]? = some ' ' := by
          rw [getElem?_append_left' _ _ 0 (by rw [h5]; omega)]
          decide
        rw [hsp0] at he1
        exact p9_no_space _ ht1 he1.symm
      · by_cases caseAnd : j < A.length + 5
        · have he := occ_getElem? _ _ j 0 hj (by rw [h9]; omega)
          have hidx : j + 0 = A.length + (j - A.length) := by omega
          rw [hidx, getElem?_append_offset] at he
          have hjlt : j - A.length < (str " and ").length := by rw [h5]; omega
          rw [getElem?_append_left' _ _ _ hjlt, p9_at_0] at he
          exact and5_no_dollar (j - A.length) (by omega) he
        · by_cases casePfx : j < A.length + 5 + pfx.length
          · by_cases hfull : j - (A.length + 5) + 9 ≤ pfx.length
            · have hb1 := occ_in_right _ A _ j hj (by omega)
              have hb2 := occ_in_right _ _ _ _ hb1 (by rw [h5]; omega)
              have hsub : j - A.length - (str " and ").length = j - (A.length + 5) := by
                rw [h5]; omega
              rw [hsub] at hb2
              have hconf := occ_confine _ pfx _ _ hb2 (by rw [h9]; omega)
              exact hP (infix_of_occ _ pfx _ hconf)
            · have ht1 : A.length + 5 + pfx.length - j < 9 := by omega
              have he := occ_getElem? _ _ j (A.length + 5 + pfx.length - j) hj
                (by rw [h9]; exact ht1)
              have hidx : j + (A.length + 5 + pfx.length - j)
                  = A.length + (5 + pfx.length) := by omega
              rw [hidx, getElem?_append_offset] at he
              have hidx2 : 5 + pfx.length = (str " and ").length + pfx.length := by rw [h5]
              rw [hidx2, getElem?_append_offset] at he
              rw [List.getElem?_append_right (Nat.le_refl pfx.length), Nat.sub_self] at he
              rw [getElem?_append_left' q B 0 (by rw [hqlen]; omega)] at he
              have hq0 : q[0]? = some 's' := by rw [hq]; exact q_at_0 d
              rw [hq0] at he
              exact p9_no_s _ ht1 he.symm
          · -- the occurrence starts inside "site_ulid = $N" or runs into B
            have hkq : j - (A.length + (5 + pfx.length)) < q.length := by omega
            have he := occ_getElem? _ _ j 0 hj (by rw [h9]; omega)
            have hidx : j + 0 = A.length + (j - A.length) := by omega
            rw [hidx, getElem?_append_offset] at he
            have hidx2 : j - A.length = (str " and ").length + (j - A.length - 5) := by
              rw [h5]; omega
            rw [hidx2, getElem?_append_offset] at he
            have hidx3 : j - A.length - 5 = pfx.length + (j - A.length - 5 - pfx.length) := by
              omega
            rw [hidx3, getElem?_append_offset] at he
            have hklt : j - A.length - 5 - pfx.length < q.length := by omega
            rw [getElem?_append_left' q B _ hklt, p9_at_0] at he
            have hk12 : j - A.length - 5 - pfx.length = 12 := by
              rw [hq] at he
              exact q_dollar_pos d hdig _ he
            -- then the next rune of the placeholder would be 'S', but it is a digit
            have he2 := occ_getElem? _ _ j 1 hj (by rw [h9]; omega)
            have hidx4 : j + 1 = A.length + (5 + pfx.length + 13) := by omega
            rw [hidx4, getElem?_append_offset] at he2
            have hidx5 : 5 + pfx.length + 13 = (str " and ").length + (pfx.length + 13) := by
              rw [h5]; omega
            rw [hidx5, getElem?_append_offset] at he2
            have hidx6 : pfx.length + 13 = pfx.length + (0 + 13) := by omega
            rw [hidx6, getElem?_append_offset] at he2
            have h13lt : 0 + 13 < q.length := by rw [hqlen]; have := List.length_pos.mpr hdnil; omega
            rw [getElem?_append_left' q B _ h13lt, p9_at_1] at he2
            have hq13 : q[0 + 13]? = d[0]? := by rw [hq]; exact q_at_13 d
            rw [hq13] at he2
            obtain ⟨d0, dt, rfl⟩ : ∃ d0 dt, d = d0 :: dt := by
              cases d with
              | nil => exact absurd rfl hdnil
              | cons d0 dt => exact ⟨d0, dt, rfl⟩
            have hd0 : d0 ∈ str "0123456789" := hdig d0 (List.mem_cons_self _ _)
            rw [List.getElem?_cons_zero] at he2
            simp only [Option.some.injEq] at he2
            exact absurd he2 (digit_not_special d0 hd0).2.2.2

theorem p14_space_pos : ∀ k, k < 14 →
    ((str " site_ulid = $")[k]? = some ' ' → k = 0 ∨ k = 10 ∨ k = 12) := by decide

theorem p14_at_vals :
    (str " site_ulid = $")[1]? = some 's' ∧ (str " site_ulid = $")[11]? = some '=' ∧
      (str " site_ulid = $")[13]? = some '$' := by decide

theorem p14_len : (str " site_ulid = $").length = 14 := by decide

theorem and5_space_pos : ∀ k, k < 5 →
    ((str " and ")[k]? = some ' ' → k = 0 ∨ k = 4) := by decide

theorem p13_infix_p14 : (str "site_ulid = $") <:+: (str " site_ulid = $") :=
  ⟨[' '], [], by decide⟩

theorem p14_cons : str " site_ulid = $" = ' ' :: str "site_ulid = $" := rfl

/-- After the table-qualified rewrite with a nonempty, space-free qualifier,
the already-scoped guard substring does not occur in the output provided the
predicate prefix occurs in no component. -/
theorem no_guard_qualified (A pfx B d : Str)
    (hdig : ∀ c ∈ d, c ∈ str "0123456789")
    (hA : ¬ (str "site_ulid = $") <:+: A) (hP : ¬ (str "site_ulid = $") <:+: pfx)
    (hB : ¬ (str "site_ulid = $") <:+: B)
    (hsp : ∀ c ∈ pfx, c ≠ ' ') (hpnil : pfx ≠ []) :
    ¬ (str " site_ulid = $") <:+:
      (A ++ (str " and " ++ (pfx ++ (str "site_ulid = $" ++ d))) ++ B) := by
  set q : Str := str "site_ulid = $" ++ d with hq
  have hqlen : q.length = 13 + d.length := q_len d
  have h5 : (str " and ").length = 5 := by decide
  have h14 : (str " site_ulid = $").length = 14 := p14_len
  intro hin
  rw [List.append_assoc] at hin
  have hin' : (str " site_ulid = $") <:+: (A ++ (str " and " ++ (pfx ++ (q ++ B)))) := by
    have he : (str " and " ++ (pfx ++ q)) ++ B = str " and " ++ (pfx ++ (q ++ B)) := by
      simp [List.append_assoc]
    rw [← he]
    exact hin
  obtain ⟨j, hj⟩ := (infix_iff_exists_drop _ _).mp hin'
  by_cases caseB : A.length + (5 + pfx.length) + q.length ≤ j
  · have hb1 := occ_in_right _ A _ j hj (by omega)
    have hb2 := occ_in_right _ _ _ _ hb1 (by rw [h5]; omega)
    have hb3 := occ_in_right _ _ _ _ hb2 (by rw [h5]; omega)
    have hb4 := occ_in_right _ _ _ _ hb3 (by rw [h5]; omega)
    exact hB (p13_infix_p14.trans (infix_of_occ _ B _ hb4))
  · by_cases caseA : j + 14 ≤ A.length
    · have hconf : (str " site_ulid = $") <+: A.drop j :=
        occ_confine _ A _ j hj (by rw [h14]; omega)
      exact hA (p13_infix_p14.trans (infix_of_occ _ A j hconf))
    · by_cases caseJA : j ≤ A.length
      · have ht1 : A.length - j < 14 := by omega
        have he1 := occ_getElem? _ _ j (A.length - j) hj (by rw [h14]; exact ht1)
        have hidx : j + (A.length - j) = A.length + 0 := by omega
        rw [hidx, getElem?_append_offset] at he1
        have hsp0 : (str " and " ++ (pfx ++ (q ++ B)))[0]? = some ' ' := by
          rw [getElem?_append_left' _ _ 0 (by rw [h5]; omega)]
          decide
        rw [hsp0] at he1
        have ht9 := p14_space_pos _ ht1 he1.symm
        have ht2 : A.length - j + 1 < 14 := by omega
        have he2 := occ_getElem? _ _ j (A.length - j + 1) hj (by rw [h14]; exact ht2)
        have hidx2 : j + (A.length - j + 1) = A.length + 1 := by omega
        rw [hidx2, getElem?_append_offset] at he2
        have hsa : (str " and " ++ (pfx ++ (q ++ B)))[1]? = some 'a' := by
          rw [getElem?_append_left' _ _ 1 (by rw [h5]; omega)]
          decide
        rw [hsa] at he2
        rcases ht9 with ht | ht | ht
        · rw [ht] at he2
          rw [show ((0 : Nat) + 1) = 1 from rfl, p14_at_vals.1] at he2
          exact absurd he2 (by decide)
        · rw [ht] at he2
          rw [show ((10 : Nat) + 1) = 11 from rfl, p14_at_vals.2.1] at he2
          exact absurd he2 (by decide)
        · rw [ht] at he2
          rw [show ((12 : Nat) + 1) = 13 from rfl, p14_at_vals.2.2] at he2
          exact absurd he2 (by decide)
      · by_cases caseAnd : j < A.length + 5
        · -- starts inside " and ": the space must be at offset 4
          have he := occ_getElem? _ _ j 0 hj (by rw [h14]; omega)
          have hidx : j + 0 = A.length + (j - A.length) := by omega
          rw [hidx, getElem?_append_offset] at he
          have hjlt : j - A.length < (str " and ").length := by rw [h5]; omega
          rw [getElem?_append_left' _ _ _ hjlt] at he
          have hp0 : (str " site_ulid = $")[0]? = some ' ' := by decide
          rw [hp0] at he
          have hk04 := and5_space_pos (j - A.length) (by omega) he
          have hk4 : j - A.length = 4 := by omega
          -- so the occurrence continues with "site_ulid = $" at the qualifier
          have hj4 : j = A.length + 4 := by omega
          rw [hj4] at hj
          have hb1 := occ_in_right _ A _ _ hj (by omega)
          have hsub : A.length + 4 - A.length = 4 := by omega
          rw [hsub] at hb1
          have hand4 : (str " and " ++ (pfx ++ (q ++ B))).drop 4 = ' ' :: (pfx ++ (q ++ B)) := by
            rw [List.drop_append_eq_append_drop]
            rw [show (str " and ").drop 4 = [' '] from by decide, h5]
            rw [show (4 : Nat) - 5 = 0 from rfl, List.drop_zero]
            rfl
          rw [hand4, p14_cons] at hb1
          have h13pre : (str "site_ulid = $") <+: (pfx ++ (q ++ B)) :=
            (List.cons_prefix_cons.mp hb1).2
          by_cases hlp : 13 ≤ pfx.length
          · exact hP (prefix_of_prefix_append _ _ _ h13pre (by rw [p13_len]; omega)).isInfix
          · have hee : (pfx ++ (q ++ B))[pfx.length]? = (str "site_ulid = $")[pfx.length]? :=
              prefix_getElem? _ _ h13pre pfx.length (by rw [p13_len]; omega)
            rw [List.getElem?_append_right (Nat.le_refl pfx.length), Nat.sub_self] at hee
            rw [getElem?_append_left' q B 0 (by rw [hqlen]; omega)] at hee
            have hq0 : q[0]? = some 's' := by rw [hq]; exact q_at_0 d
            rw [hq0] at hee
            have hlp0 : pfx.length = 0 := p13_s_pos pfx.length (by omega) hee.symm
            exact hpnil (List.length_eq_zero.mp hlp0)
        · by_cases casePfx : j < A.length + 5 + pfx.length
          · -- starts inside the space-free qualifier: impossible, first rune is ' '
            have he := occ_getElem? _ _ j 0 hj (by rw [h14]; omega)
            have hidx : j + 0 = A.length + (j - A.length) := by omega
            rw [hidx, getElem?_append_offset] at he
            have hidx2 : j - A.length = (str " and ").length + (j - A.length - 5) := by
              rw [h5]; omega
            rw [hidx2, getElem?_append_offset] at he
            have hjlt : j - A.length - 5 < pfx.length := by omega
            rw [getElem?_append_left' pfx _ _ hjlt] at he
            have hp0 : (str " site_ulid = $")[0]? = some ' ' := by decide
            rw [hp0] at he
            have hmem : ' ' ∈ pfx := List.getElem?_mem he
            exact hsp ' ' hmem rfl
          · -- starts inside "site_ulid = $N" (or right at B)
            have hkq : j - (A.length + (5 + pfx.length)) < q.length := by omega
            have he := occ_getElem? _ _ j 0 hj (by rw [h14]; omega)
            have hidx : j + 0 = A.length + (j - A.length) := by omega
            rw [hidx, getElem?_append_offset] at he
            have hidx2 : j - A.length = (str " and ").length + (j - A.length - 5) := by
              rw [h5]; omega
            rw [hidx2, getElem?_append_offset] at he
            have hidx3 : j - A.length - 5 = pfx.length + (j - A.length - 5 - pfx.length) := by
              omega
            rw [hidx3, getElem?_append_offset] at he
            have hklt : j - A.length - 5 - pfx.length < q.length := by omega
            rw [getElem?_append_left' q B _ hklt] at he
            have hp0 : (str " site_ulid = $")[0]? = some ' ' := by decide
            rw [hp0] at he
            have hk911 : j - A.length - 5 - pfx.length = 9 ∨
                j - A.length - 5 - pfx.length = 11 := by
              rw [hq] at he
              exact q_space_pos d hdig _ he
            have he2 := occ_getElem? _ _ j 1 hj (by rw [h14]; omega)
            have hidx4 : j + 1 = A.length + (j + 1 - A.length) := by omega
            rw [hidx4, getElem?_append_offset] at he2
            have hidx5 : j + 1 - A.length = (str " and ").length + (j + 1 - A.length - 5) := by
              rw [h5]; omega
            rw [hidx5, getElem?_append_offset] at he2
            have hidx6 : j + 1 - A.length - 5
                = pfx.length + (j + 1 - A.length - 5 - pfx.length) := by omega
            rw [hidx6, getElem?_append_offset] at he2
            have hklt2 : j + 1 - A.length - 5 - pfx.length < q.length := by
              rw [hqlen]; omega
            rw [getElem?_append_left' q B _ hklt2] at he2
            have hp1 : (str " site_ulid = $")[1]? = some 's' := p14_at_vals.1
            rw [hp1] at he2
            have hkk : j + 1 - A.length - 5 - pfx.length
                = (j - A.length - 5 - pfx.length) + 1 := by omega
            rw [hkk] at he2
            rcases hk911 with hk | hk
            · rw [hk] at he2
              have h10 : q[9 + 1]? = some '=' := by rw [hq]; exact q_at_10 d
              rw [h10] at he2
              exact absurd he2 (by decide)
            · rw [hk] at he2
              have h12 : q[11 + 1]? = some '$' := by rw [hq]; exact q_at_12 d
              rw [h12] at he2
              exact absurd he2 (by decide)

/-! ### Plumbing between `AppendSiteULID` and the counting lemmas -/

theorem not_contains_iff (w p : Str) : goContains w p = false ↔ ¬ p <:+: w := by
  rw [← goContains_infix_iff]
  cases goContains w p <;> simp

theorem not_infix_before (p U V : Str) (hp : p ≠ [])
    (h1 : occCount p (U ++ p ++ V) = 1) : ¬ p <:+: U := by
  intro hin
  obtain ⟨i0, hi0, hu⟩ := (occCount_eq_one_iff p hp _).mp h1
  have hcanon : i0 = U.length := (hu U.length (occ_of_decomp p U V)).symm
  obtain ⟨x, y, hxy⟩ := hin
  have hocc : p <+: U.drop x.length := by
    rw [← hxy, List.append_assoc, List.drop_append_eq_append_drop, List.drop_length,
      Nat.sub_self, List.drop_zero, List.nil_append]
    exact List.prefix_append p y
  have hj : p <+: (U ++ p ++ V).drop x.length := by
    rw [List.append_assoc]
    exact occ_extend p U (p ++ V) x.length hocc (by
      have := congrArg List.length hxy
      simp only [List.length_append] at this
      omega)
  have := hu x.length hj
  have hxle := congrArg List.length hxy
  simp only [List.length_append] at hxle
  have hplen : 1 ≤ p.length := List.length_pos.mpr hp
  omega

theorem not_infix_after (p U V : Str) (hp : p ≠ [])
    (h1 : occCount p (U ++ p ++ V) = 1) : ¬ p <:+: V := by
  intro hin
  obtain ⟨i0, hi0, hu⟩ := (occCount_eq_one_iff p hp _).mp h1
  have hcanon : i0 = U.length := (hu U.length (occ_of_decomp p U V)).symm
  obtain ⟨j, hj⟩ := (infix_iff_exists_drop p V).mp hin
  have hocc : p <+: (U ++ p ++ V).drop ((U ++ p).length + j) := by
    rw [List.append_assoc, ← List.append_assoc]
    exact occ_shift p (U ++ p) V j hj
  have := hu _ hocc
  have hplen : 1 ≤ p.length := List.length_pos.mpr hp
  simp only [List.length_append] at this
  omega

theorem cons_prefix_drop (c : Char) (p s : Str) (i : Nat)
    (h : (c :: p) <+: s.drop i) : p <+: s.drop (i + 1) ∧ s[i]? = some c := by
  obtain ⟨t, ht⟩ := h
  constructor
  · have h1 : (s.drop i).drop 1 = s.drop (i + 1) := by
      rw [List.drop_drop]
    rw [← h1, ← ht]
    exact ⟨t, rfl⟩
  · have h2 : (s.drop i)[0]? = some c := by
      rw [← ht]
      simp
    rw [List.getElem?_drop] at h2
    rw [← h2]
    simp

theorem append_prefix_right (x y s : Str) (j : Nat) (h : (x ++ y) <+: s.drop j) :
    y <+: s.drop (j + x.length) := by
  obtain ⟨t, ht⟩ := h
  have h1 : (s.drop j).drop x.length = s.drop (j + x.length) := by
    rw [List.drop_drop, Nat.add_comm]
  rw [← h1, ← ht, List.append_assoc, List.drop_left]
  exact ⟨t, rfl⟩

theorem appendSiteULID_bare_eq (tid w : Str) (args : List GoVal)
    (hg : goContains w (str " site_ulid = $") = false)
    (hc : goContains w (str "$SITEULID") = true)
    (hd : goContains w (str ".$SITEULID") = false) :
    AppendSiteULID tid w args =
      (goReplace w (str "$SITEULID")
          (str " site_ulid = $" ++ itoa (args.length + 1)),
        args ++ [GoVal.vstr tid], none) := by
  unfold AppendSiteULID
  rw [hg, hc, hd]
  simp only [Bool.false_eq_true, if_false, Bool.not_true, if_true, List.length_append,
    List.length_cons, List.length_nil, Nat.zero_add]

theorem appendSiteULID_qual_eq (tid w : Str) (args : List GoVal)
    (hg : goContains w (str " site_ulid = $") = false)
    (hc : goContains w (str "$SITEULID") = true)
    (hd : goContains w (str ".$SITEULID") = true) :
    AppendSiteULID tid w args =
      (goReplace w
          (((goSplit ((goSplit w (str "$SITEULID")).headD []) (str " ")).getLastD []) ++
            str "$SITEULID")
          (str " and " ++
            (((goSplit ((goSplit w (str "$SITEULID")).headD []) (str " ")).getLastD []) ++
              (str "site_ulid = $" ++ itoa (args.length + 1)))),
        args ++ [GoVal.vstr tid], none) := by
  unfold AppendSiteULID
  rw [hg, hc, hd]
  simp only [Bool.false_eq_true, if_false, Bool.not_true, if_true, List.length_append,
    List.length_cons, List.length_nil, Nat.zero_add, List.append_assoc]

/-! ### Claim C1 — single injection of the tenant predicate -/

/-- C1 (amended): for every non-empty whereClause containing the placeholder
exactly once and containing no occurrence of "site_ulid = $" at all,
`AppendSiteULID` succeeds, the rewritten clause contains exactly one
occurrence of the tenant predicate `site_ulid = $N`, the argument list grows
by one, and the new last argument is the tenant id, with `N` the new
argument count. -/
theorem appendSiteULID_injects_once (tid w : Str) (args : List GoVal)
    (h0 : w ≠ [])
    (h1 : occCount (str "$SITEULID") w = 1)
    (h2 : goContains w (str "site_ulid = $") = false) :
    (AppendSiteULID tid w args).2.2 = none ∧
      occCount (str "site_ulid = $" ++ itoa (args.length + 1))
        (AppendSiteULID tid w args).1 = 1 ∧
      (AppendSiteULID tid w args).2.1.length = args.length + 1 ∧
      (AppendSiteULID tid w args).2.1.getLast? = some (GoVal.vstr tid) := by
  have hP9 : (str "$SITEULID") ≠ [] := by decide
  have h13w : ¬ (str "site_ulid = $") <:+: w := (not_contains_iff w _).mp h2
  have hguard : goContains w (str " site_ulid = $") = false := by
    rw [not_contains_iff]
    intro hin
    exact h13w (p13_infix_p14.trans hin)
  have hcont : goContains w (str "$SITEULID") = true := contains_of_count_one _ _ hP9 h1
  obtain ⟨i0, hi0, hu⟩ := (occCount_eq_one_iff _ hP9 w).mp h1
  have hw : w = w.take i0 ++ str "$SITEULID" ++ w.drop (i0 + (str "$SITEULID").length) :=
    decomp_of_occ _ w i0 hi0
  set U : Str := w.take i0 with hU
  set B : Str := w.drop (i0 + (str "$SITEULID").length) with hB
  have hcount' : occCount (str "$SITEULID") (U ++ str "$SITEULID" ++ B) = 1 := by
    rw [← hw]
    exact h1
  have hUinf : U <:+: w := by
    rw [hU]
    exact (List.take_prefix i0 w).isInfix
  have hBinf : B <:+: w := by
    rw [hB]
    exact (List.drop_suffix _ w).isInfix
  have hU13 : ¬ (str "site_ulid = $") <:+: U := fun hin => h13w (hin.trans hUinf)
  have hB13 : ¬ (str "site_ulid = $") <:+: B := fun hin => h13w (hin.trans hBinf)
  have hdig := itoa_digits (args.length + 1)
  by_cases hdot : goContains w (str ".$SITEULID") = true
  · -- table-qualified branch
    rw [appendSiteULID_qual_eq tid w args hguard hcont hdot]
    have hsplitw : goSplit w (str "$SITEULID") = [U, B] := goSplit_unique _ hP9 U w B h1 hw
    rw [hsplitw]
    simp only [List.headD_cons]
    rw [show str " " = [' '] from rfl]
    obtain ⟨rest, e1, e2, e3⟩ := lastSplit_spec U
    set pfx : Str := (goSplit U [' ']).getLastD [] with hpfx
    have hdot' : ∃ i, ('.' :: str "$SITEULID") <+: w.drop i := by
      have hin := (goContains_infix_iff w (str ".$SITEULID")).mp hdot
      rw [show str ".$SITEULID" = '.' :: str "$SITEULID" from rfl] at hin
      exact (infix_iff_exists_drop _ _).mp hin
    obtain ⟨i, hpi⟩ := hdot'
    obtain ⟨hp9i, hdot_char⟩ := cons_prefix_drop '.' _ w i hpi
    have hi1 : i + 1 = i0 := hu (i + 1) hp9i
    have hilen : i0 + 9 ≤ w.length := by
      have hle := occ_le _ w i0 hP9 hi0
      rw [p9_len] at hle
      exact hle
    have hUlen : U.length = i0 := by
      rw [hU, List.length_take]
      omega
    have hUlast : U.getLast? = some '.' := by
      rw [List.getLast?_eq_getElem?, hUlen]
      have hTake : U[i0 - 1]? = w[i0 - 1]? := by
        rw [hU, List.getElem?_take]
        rw [if_pos (by omega)]
      rw [hTake, ← hdot_char]
      congr 1
      omega
    have hpnil : pfx ≠ [] := by
      intro hpe
      rcases e3 hpe with hUe | hUsp
      · rw [hUe] at hUlast
        simp at hUlast
      · rw [hUlast] at hUsp
        simp at hUsp
    have hw2 : w = rest ++ (pfx ++ str "$SITEULID") ++ B := by
      rw [hw, e1]
      simp [List.append_assoc]
    have hpat : (pfx ++ str "$SITEULID") ≠ [] := by
      intro hc
      have hlc := congrArg List.length hc
      rw [List.length_append, p9_len] at hlc
      simp at hlc
    have hUlen2 : U.length = rest.length + pfx.length := by
      rw [e1, List.length_append]
    have hcnt2 : occCount (pfx ++ str "$SITEULID") w = 1 := by
      apply count_one_of_unique _ _ hpat rest.length
      · rw [hw2]
        exact occ_of_decomp _ rest B
      · intro j hj
        have h9j := append_prefix_right pfx (str "$SITEULID") w j hj
        have h9u := hu (j + pfx.length) h9j
        omega
    rw [goReplace_unique _ _ hpat rest w B hcnt2 hw2]
    refine ⟨trivial, ?_, by simp, by simp⟩
    apply count_one_qualified rest pfx B (itoa (args.length + 1)) hdig
    · intro hin
      have hrU : rest <+: U := ⟨pfx, e1.symm⟩
      exact h13w (hin.trans (hrU.isInfix.trans hUinf))
    · intro hin
      have hpU : pfx <:+ U := ⟨rest, e1.symm⟩
      exact h13w (hin.trans (hpU.isInfix.trans hUinf))
    · exact hB13
  · -- bare branch
    have hdotf : goContains w (str ".$SITEULID") = false := by
      cases hgb : goContains w (str ".$SITEULID")
      · rfl
      · exact absurd hgb hdot
    rw [appendSiteULID_bare_eq tid w args hguard hcont hdotf]
    have hrepl : goReplace w (str "$SITEULID")
        (str " site_ulid = $" ++ itoa (args.length + 1))
          = U ++ (str " site_ulid = $" ++ itoa (args.length + 1)) ++ B :=
      goReplace_unique _ _ hP9 U w B h1 hw
    rw [hrepl]
    refine ⟨rfl, ?_, by simp, by simp⟩
    exact count_one_bare U B (itoa (args.length + 1)) hdig hU13 hB13

/-! ### Normal forms of a successful rewrite, with flank facts -/

theorem appendSiteULID_scoped_eq (tid w : Str) (args : List GoVal)
    (h : goContains w (str " site_ulid = $") = true) :
    AppendSiteULID tid w args = (w, args, none) := by
  unfold AppendSiteULID
  rw [h]
  rfl

theorem appendSiteULID_error_eq (tid w : Str) (args : List GoVal)
    (h1 : goContains w (str "$SITEULID") = false)
    (h2 : goContains w (str " site_ulid = $") = false) :
    AppendSiteULID tid w args =
      (w, args, some (str "No $SITEULID placeholder defined in " ++ w)) := by
  unfold AppendSiteULID
  rw [h2, h1]
  rfl

/-- The bare-placeholder rewrite, decomposed: the output clause is
`U ++ " site_ulid = $N" ++ B` with flanks free of the predicate prefix and
of the placeholder. -/
theorem appendSiteULID_bare_decomp (tid w : Str) (args : List GoVal)
    (h1 : occCount (str "$SITEULID") w = 1)
    (h2 : goContains w (str "site_ulid = $") = false)
    (hdotf : goContains w (str ".$SITEULID") = false) :
    ∃ U B : Str,
      (¬ (str "site_ulid = $") <:+: U) ∧ (¬ (str "site_ulid = $") <:+: B) ∧
      (¬ (str "$SITEULID") <:+: U) ∧ (¬ (str "$SITEULID") <:+: B) ∧
      AppendSiteULID tid w args =
        (U ++ (str " site_ulid = $" ++ itoa (args.length + 1)) ++ B,
          args ++ [GoVal.vstr tid], none) := by
  have hP9 : (str "$SITEULID") ≠ [] := by decide
  have h13w : ¬ (str "site_ulid = $") <:+: w := (not_contains_iff w _).mp h2
  have hguard : goContains w (str " site_ulid = $") = false := by
    rw [not_contains_iff]
    intro hin
    exact h13w (p13_infix_p14.trans hin)
  have hcont : goContains w (str "$SITEULID") = true := contains_of_count_one _ _ hP9 h1
  obtain ⟨i0, hi0, hu⟩ := (occCount_eq_one_iff _ hP9 w).mp h1
  have hw : w = w.take i0 ++ str "$SITEULID" ++ w.drop (i0 + (str "$SITEULID").length) :=
    decomp_of_occ _ w i0 hi0
  set U : Str := w.take i0 with hU
  set B : Str := w.drop (i0 + (str "$SITEULID").length) with hB
  have hcount' : occCount (str "$SITEULID") (U ++ str "$SITEULID" ++ B) = 1 := by
    rw [← hw]
    exact h1
  have hUinf : U <:+: w := by
    rw [hU]
    exact (List.take_prefix i0 w).isInfix
  have hBinf : B <:+: w := by
    rw [hB]
    exact (List.drop_suffix _ w).isInfix
  refine ⟨U, B, fun hin => h13w (hin.trans hUinf), fun hin => h13w (hin.trans hBinf),
    not_infix_before _ U B hP9 hcount', not_infix_after _ U B hP9 hcount', ?_⟩
  rw [appendSiteULID_bare_eq tid w args hguard hcont hdotf,
    goReplace_unique _ _ hP9 U w B h1 hw]

/-- The table-qualified rewrite, decomposed: the output clause is
`rest ++ " and " ++ pfx ++ "site_ulid = $N" ++ B` with a nonempty,
space-free qualifier and flanks free of the predicate prefix and of the
placeholder. -/
theorem appendSiteULID_qual_decomp (tid w : Str) (args : List GoVal)
    (h1 : occCount (str "$SITEULID") w = 1)
    (h2 : goContains w (str "site_ulid = $") = false)
    (hdot : goContains w (str ".$SITEULID") = true) :
    ∃ rest pfx B : Str,
      pfx ≠ [] ∧ (∀ c ∈ pfx, c ≠ ' ') ∧
      (¬ (str "site_ulid = $") <:+: rest) ∧ (¬ (str "site_ulid = $") <:+: pfx) ∧
      (¬ (str "site_ulid = $") <:+: B) ∧
      (¬ (str "$SITEULID") <:+: rest) ∧ (¬ (str "$SITEULID") <:+: pfx) ∧
      (¬ (str "$SITEULID") <:+: B) ∧
      AppendSiteULID tid w args =
        (rest ++ (str " and " ++ (pfx ++ (str "site_ulid = $" ++ itoa (args.length + 1)))) ++ B,
          args ++ [GoVal.vstr tid], none) := by
  have hP9 : (str "$SITEULID") ≠ [] := by decide
  have h13w : ¬ (str "site_ulid = $") <:+: w := (not_contains_iff w _).mp h2
  have hguard : goContains w (str " site_ulid = $") = false := by
    rw [not_contains_iff]
    intro hin
    exact h13w (p13_infix_p14.trans hin)
  have hcont : goContains w (str "$SITEULID") = true := contains_of_count_one _ _ hP9 h1
  obtain ⟨i0, hi0, hu⟩ := (occCount_eq_one_iff _ hP9 w).mp h1
  have hw : w = w.take i0 ++ str "$SITEULID" ++ w.drop (i0 + (str "$SITEULID").length) :=
    decomp_of_occ _ w i0 hi0
  set U : Str := w.take i0 with hU
  set B : Str := w.drop (i0 + (str "$SITEULID").length) with hB
  have hcount' : occCount (str "$SITEULID") (U ++ str "$SITEULID" ++ B) = 1 := by
    rw [← hw]
    exact h1
  have hUinf : U <:+: w := by
    rw [hU]
    exact (List.take_prefix i0 w).isInfix
  have hBinf : B <:+: w := by
    rw [hB]
    exact (List.drop_suffix _ w).isInfix
  have hU9 : ¬ (str "$SITEULID") <:+: U := not_infix_before _ U B hP9 hcount'
  have hB9 : ¬ (str "$SITEULID") <:+: B := not_infix_after _ U B hP9 hcount'
  obtain ⟨rest, e1, e2, e3⟩ := lastSplit_spec U
  set pfx : Str := (goSplit U [' ']).getLastD [] with hpfx
  have hdot' : ∃ i, ('.' :: str "$SITEULID") <+: w.drop i := by
    have hin := (goContains_infix_iff w (str ".$SITEULID")).mp hdot
    rw [show str ".$SITEULID" = '.' :: str "$SITEULID" from rfl] at hin
    exact (infix_iff_exists_drop _ _).mp hin
  obtain ⟨i, hpi⟩ := hdot'
  obtain ⟨hp9i, hdot_char⟩ := cons_prefix_drop '.' _ w i hpi
  have hi1 : i + 1 = i0 := hu (i + 1) hp9i
  have hilen : i0 + 9 ≤ w.length := by
    have hle := occ_le _ w i0 hP9 hi0
    rw [p9_len] at hle
    exact hle
  have hUlen : U.length = i0 := by
    rw [hU, List.length_take]
    omega
  have hUlast : U.getLast? = some '.' := by
    rw [List.getLast?_eq_getElem?, hUlen]
    have hTake : U[i0 - 1]? = w[i0 - 1]? := by
      rw [hU, List.getElem?_take]
      rw [if_pos (by omega)]
    rw [hTake, ← hdot_char]
    congr 1
    omega
  have hpnil : pfx ≠ [] := by
    intro hpe
    rcases e3 hpe with hUe | hUsp
    · rw [hUe] at hUlast
      simp at hUlast
    · rw [hUlast] at hUsp
      simp at hUsp
  have hw2 : w = rest ++ (pfx ++ str "$SITEULID") ++ B := by
    rw [hw, e1]
    simp [List.append_assoc]
  have hpat : (pfx ++ str "$SITEULID") ≠ [] := by
    intro hc
    have hlc := congrArg List.length hc
    rw [List.length_append, p9_len] at hlc
    simp at hlc
  have hUlen2 : U.length = rest.length + pfx.length := by
    rw [e1, List.length_append]
  have hcnt2 : occCount (pfx ++ str "$SITEULID") w = 1 := by
    apply count_one_of_unique _ _ hpat rest.length
    · rw [hw2]
      exact occ_of_decomp _ rest B
    · intro j hj
      have h9j := append_prefix_right pfx (str "$SITEULID") w j hj
      have h9u := hu (j + pfx.length) h9j
      omega
  have hrU : rest <+: U := ⟨pfx, e1.symm⟩
  have hpU : pfx <:+ U := ⟨rest, e1.symm⟩
  refine ⟨rest, pfx, B, hpnil, e2,
    fun hin => h13w (hin.trans (hrU.isInfix.trans hUinf)),
    fun hin => h13w (hin.trans (hpU.isInfix.trans hUinf)),
    fun hin => h13w (hin.trans hBinf),
    fun hin => hU9 (hin.trans hrU.isInfix),
    fun hin => hU9 (hin.trans hpU.isInfix),
    hB9, ?_⟩
  rw [appendSiteULID_qual_eq tid w args hguard hcont hdot]
  have hsplitw : goSplit w (str "$SITEULID") = [U, B] := goSplit_unique _ hP9 U w B h1 hw
  rw [hsplitw]
  simp only [List.headD_cons]
  rw [show str " " = [' '] from rfl, ← hpfx,
    goReplace_unique _ _ hpat rest w B hcnt2 hw2]

/-! ### Claims C1 (witness, counterexample) and C2 -/

/-- Witness for C1 (amended) on a table-qualified clause. -/
theorem appendSiteULID_injects_once_witness :
    (AppendSiteULID (str "T") (str "where t.$SITEULID") []).2.2 = none ∧
      occCount (str "site_ulid = $" ++ itoa 1)
        (AppendSiteULID (str "T") (str "where t.$SITEULID") []).1 = 1 ∧
      (AppendSiteULID (str "T") (str "where t.$SITEULID") []).2.1.length = 1 ∧
      (AppendSiteULID (str "T") (str "where t.$SITEULID") []).2.1.getLast?
        = some (GoVal.vstr (str "T")) :=
  appendSiteULID_injects_once (str "T") (str "where t.$SITEULID") [] (by decide) (by decide)
    (by decide)

/-- C1, counterexample to the claim as stated: the clause
`"(site_ulid = $1) and $SITEULID"` is non-empty, contains the placeholder
exactly once and is not already scoped (the guard substring
`" site_ulid = $"` is absent), yet the rewritten clause contains the tenant
predicate `site_ulid = $1` twice, not exactly once. -/
theorem appendSiteULID_injects_once_counterexample :
    ((str "(site_ulid = $1) and $SITEULID") ≠ [] ∧
        occCount (str "$SITEULID") (str "(site_ulid = $1) and $SITEULID") = 1 ∧
        goContains (str "(site_ulid = $1) and $SITEULID") (str " site_ulid = $") = false) ∧
      occCount (str "site_ulid = $" ++ itoa 1)
        (AppendSiteULID (str "T") (str "(site_ulid = $1) and $SITEULID") []).1 = 2 := by
  refine ⟨⟨by decide, by decide, by decide⟩, by decide⟩

/-- C2 (amended): on a whereClause containing the placeholder exactly once
and no occurrence of `"site_ulid = $"`, the first call succeeds, and calling
`AppendSiteULID` on its own output returns the clause and the argument list
unchanged — with no error on the bare-placeholder branch, but with the
missing-placeholder error on the table-qualified branch, whose rewritten
predicate is dot-qualified and therefore fails the space-prefixed
already-scoped guard. -/
theorem appendSiteULID_second_call (tid w : Str) (args : List GoVal)
    (h1 : occCount (str "$SITEULID") w = 1)
    (h2 : goContains w (str "site_ulid = $") = false) :
    (AppendSiteULID tid w args).2.2 = none ∧
      (AppendSiteULID tid (AppendSiteULID tid w args).1 (AppendSiteULID tid w args).2.1).1
        = (AppendSiteULID tid w args).1 ∧
      (AppendSiteULID tid (AppendSiteULID tid w args).1 (AppendSiteULID tid w args).2.1).2.1
        = (AppendSiteULID tid w args).2.1 ∧
      (goContains w (str ".$SITEULID") = false →
        (AppendSiteULID tid (AppendSiteULID tid w args).1
          (AppendSiteULID tid w args).2.1).2.2 = none) ∧
      (goContains w (str ".$SITEULID") = true →
        (AppendSiteULID tid (AppendSiteULID tid w args).1
            (AppendSiteULID tid w args).2.1).2.2
          = some (str "No $SITEULID placeholder defined in "
              ++ (AppendSiteULID tid w args).1)) := by
  by_cases hdot : goContains w (str ".$SITEULID") = true
  · obtain ⟨rest, pfx, B, hpnil, hsp, h13r, h13p, h13B, h9r, h9p, h9B, heq⟩ :=
      appendSiteULID_qual_decomp tid w args h1 h2 hdot
    rw [heq]
    have hdig := itoa_digits (args.length + 1)
    have hnog : goContains
        (rest ++ (str " and " ++ (pfx ++ (str "site_ulid = $" ++ itoa (args.length + 1)))) ++ B)
        (str " site_ulid = $") = false :=
      (not_contains_iff _ _).mpr
        (no_guard_qualified rest pfx B (itoa (args.length + 1)) hdig h13r h13p h13B hsp hpnil)
    have hnop : goContains
        (rest ++ (str " and " ++ (pfx ++ (str "site_ulid = $" ++ itoa (args.length + 1)))) ++ B)
        (str "$SITEULID") = false :=
      (not_contains_iff _ _).mpr
        (no_placeholder_qualified rest pfx B (itoa (args.length + 1)) hdig
          (itoa_ne_nil _) h9r h9p h9B)
    rw [appendSiteULID_error_eq tid _ _ hnop hnog]
    refine ⟨rfl, rfl, rfl, ?_, fun _ => rfl⟩
    intro hdf
    rw [hdot] at hdf
    exact Bool.noConfusion hdf
  · have hdotf : goContains w (str ".$SITEULID") = false := by
      cases hgb : goContains w (str ".$SITEULID")
      · rfl
      · exact absurd hgb hdot
    obtain ⟨U, B, h13U, h13B, h9U, h9B, heq⟩ :=
      appendSiteULID_bare_decomp tid w args h1 h2 hdotf
    rw [heq]
    have hguard2 : goContains
        (U ++ (str " site_ulid = $" ++ itoa (args.length + 1)) ++ B)
        (str " site_ulid = $") = true := by
      rw [goContains_infix_iff]
      exact infix_of_infix_part _ _ U B
        (List.prefix_append (str " site_ulid = $") (itoa (args.length + 1))).isInfix
    rw [appendSiteULID_scoped_eq tid _ _ hguard2]
    refine ⟨rfl, rfl, rfl, fun _ => rfl, ?_⟩
    intro hdt
    rw [hdotf] at hdt
    exact Bool.noConfusion hdt

/-- Witness for C2 (amended) on a bare-placeholder clause. -/
theorem appendSiteULID_second_call_witness :
    (AppendSiteULID (str "T") (str "name = $1 and $SITEULID") [GoVal.vstr (str "x")]).2.2
        = none ∧
      (AppendSiteULID (str "T")
          (AppendSiteULID (str "T") (str "name = $1 and $SITEULID")
            [GoVal.vstr (str "x")]).1
          (AppendSiteULID (str "T") (str "name = $1 and $SITEULID")
            [GoVal.vstr (str "x")]).2.1).1
        = (AppendSiteULID (str "T") (str "name = $1 and $SITEULID")
            [GoVal.vstr (str "x")]).1 ∧
      (AppendSiteULID (str "T")
          (AppendSiteULID (str "T") (str "name = $1 and $SITEULID")
            [GoVal.vstr (str "x")]).1
          (AppendSiteULID (str "T") (str "name = $1 and $SITEULID")
            [GoVal.vstr (str "x")]).2.1).2.1
        = (AppendSiteULID (str "T") (str "name = $1 and $SITEULID")
            [GoVal.vstr (str "x")]).2.1 ∧
      (goContains (str "name = $1 and $SITEULID") (str ".$SITEULID") = false →
        (AppendSiteULID (str "T")
          (AppendSiteULID (str "T") (str "name = $1 and $SITEULID")
            [GoVal.vstr (str "x")]).1
          (AppendSiteULID (str "T") (str "name = $1 and $SITEULID")
            [GoVal.vstr (str "x")]).2.1).2.2 = none) ∧
      (goContains (str "name = $1 and $SITEULID") (str ".$SITEULID") = true →
        (AppendSiteULID (str "T")
            (AppendSiteULID (str "T") (str "name = $1 and $SITEULID")
              [GoVal.vstr (str "x")]).1
            (AppendSiteULID (str "T") (str "name = $1 and $SITEULID")
              [GoVal.vstr (str "x")]).2.1).2.2
          = some (str "No $SITEULID placeholder defined in "
              ++ (AppendSiteULID (str "T") (str "name = $1 and $SITEULID")
                  [GoVal.vstr (str "x")]).1)) :=
  appendSiteULID_second_call (str "T") (str "name = $1 and $SITEULID")
    [GoVal.vstr (str "x")] (by decide) (by decide)

/-- C2, counterexample to the claim as stated: on the table-qualified input
`"x.$SITEULID"` the first call succeeds, but the second call on its output
returns the missing-placeholder error rather than no error. -/
theorem appendSiteULID_second_call_counterexample :
    AppendSiteULID (str "T") (str "x.$SITEULID") []
        = (str " and x.site_ulid = $1", [GoVal.vstr (str "T")], none) ∧
      (AppendSiteULID (str "T") (str " and x.site_ulid = $1")
          [GoVal.vstr (str "T")]).2.2 ≠ none := by
  refine ⟨by decide, by decide⟩
